import Mathlib

/-!
Verification of the `duluk/weather` repository: a shallow embedding of the
pure cores of the two weather providers (`pkg/weather/openweather/provider.go`
and `pkg/weather/openmeteo/provider.go`) together with proofs about them.

Conventions of the embedding:
* Go `float64` fields are modelled as `Rat` (every finite float is a rational,
  and the code only copies and compares these fields; decoded JSON cannot
  contain NaN or infinities).
* Go `int` fields are modelled as `Int` (the code only copies them).
* Go slices become `List`s; an indexing operation that can panic is modelled
  through `Option` (`none` = runtime panic), as is a `nil`-map-value
  dereference.  Functions returning `(T, error)` become `Except String T`.
* Go strings are compared bytewise; for valid UTF-8 the bytewise order
  coincides with code-point order, so the comparison is modelled
  character-by-character on `String.data`.
* Only the struct fields that the translated functions actually read are
  carried in the Lean structures.
-/

/-- Go bytewise lexicographic `<` on strings, modelled on the character lists
(for valid UTF-8, bytewise order equals code-point order). -/
def charsLt : List Char → List Char → Bool
  | _, [] => false
  | [], _ :: _ => true
  | a :: as, b :: bs => if a = b then charsLt as bs else decide (a.toNat < b.toNat)

/-- Splitting a character list at every occurrence of the separator character.
This models Go `strings.Split(s, sep)` for a single-character `sep`
(the only separators the program uses are " ", ":" and ","). -/
def splitChar (c : Char) : List Char → List (List Char)
  | [] => [[]]
  | a :: rest =>
    match splitChar c rest with
    | [] => if a = c then [[], []] else [[a]]
    | g :: gs => if a = c then [] :: g :: gs else (a :: g) :: gs

/-- Go `strings.Split` for a one-character separator, on `String`. -/
def goSplit (s : String) (c : Char) : List String :=
  (splitChar c s.data).map (fun l => ⟨l⟩)

/-- Test whether `pat` is an initial segment of `s`. -/
def isStartOf : List Char → List Char → Bool
  | [], _ => true
  | _ :: _, [] => false
  | a :: as, b :: bs => a = b && isStartOf as bs

/-- Occurrence of a pattern anywhere in a character list. -/
def occursIn (pat : List Char) : List Char → Bool
  | [] => isStartOf pat []
  | s :: rest => isStartOf pat (s :: rest) || occursIn pat rest

/-- Go `strings.Contains`. -/
def goContains (s pat : String) : Bool :=
  occursIn pat.data s.data

/-- Drop leading ASCII whitespace characters.  Together with a reversal this
models Go `strings.TrimSpace`; the call sites only ever see ASCII spaces
because the trimmed text already matched `^[a-zA-Z ]+, ?[A-Z]{2}$`. -/
def dropWS : List Char → List Char
  | [] => []
  | c :: rest => if c = ' ' ∨ c = '\t' ∨ c = '\n' ∨ c = '\r' then dropWS rest else c :: rest

/-- Go `strings.TrimSpace` (restricted to ASCII whitespace, see `dropWS`). -/
def goTrim (s : String) : String :=
  ⟨((dropWS s.data).reverse |> dropWS).reverse⟩

/-- ASCII digit test, as Go's regexp class `[0-9]` (a byte test). -/
def isDig (c : Char) : Bool :=
  48 ≤ c.toNat && c.toNat ≤ 57

/-- Leap-year rule of the proleptic Gregorian calendar, as in Go's
`time` package. -/
def isLeap (y : Nat) : Bool :=
  y % 4 == 0 && (y % 100 != 0 || y % 400 == 0)

/-- Number of days in a month, as in Go's `time` package. -/
def daysInMonth (y m : Nat) : Nat :=
  if m = 2 then (if isLeap y then 29 else 28)
  else if m = 4 ∨ m = 6 ∨ m = 9 ∨ m = 11 then 30 else 31

/-- Range validation of Go's `time.Parse`: month in 1..12, day in range for
the month of the year. -/
def dateInRange (y m d : Nat) : Option (Nat × Nat × Nat) :=
  if 1 ≤ m ∧ m ≤ 12 ∧ 1 ≤ d ∧ d ≤ daysInMonth y m then some (y, m, d) else none

/-- Parsing of a character list against the Go layout `"2006-01-02"`:
exactly four year digits, a dash, two month digits, a dash, two day digits,
with the month in 1..12 and the day in range for the month.  This models
`time.Parse("2006-01-02", s)` (restricted to non-negative years; Go would
additionally accept a sign inside the four-byte year field). -/
def parseDateChars : List Char → Option (Nat × Nat × Nat)
  | [y1, y2, y3, y4, c1, m1, m2, c2, d1, d2] =>
    if isDig y1 && isDig y2 && isDig y3 && isDig y4 && c1 = '-' &&
       isDig m1 && isDig m2 && c2 = '-' && isDig d1 && isDig d2 then
      dateInRange
        ((y1.toNat - 48) * 1000 + (y2.toNat - 48) * 100 +
         (y3.toNat - 48) * 10 + (y4.toNat - 48))
        ((m1.toNat - 48) * 10 + (m2.toNat - 48))
        ((d1.toNat - 48) * 10 + (d2.toNat - 48))
    else none
  | _ => none

/-- Result of `time.Parse("2006-01-02", s)` with the error ignored, as the
source does (`parsedDate, _ := time.Parse(...)`): a failed parse yields Go's
zero `time.Time`, which is the date January 1 of year 1, i.e. `(1, 1, 1)`. -/
def goDateOf (s : String) : Nat × Nat × Nat :=
  (parseDateChars s.data).getD (1, 1, 1)

/-- Strict chronological order on dates represented as (year, month, day). -/
def dateLt (a b : Nat × Nat × Nat) : Prop :=
  a.1 < b.1 ∨ (a.1 = b.1 ∧ (a.2.1 < b.2.1 ∨ (a.2.1 = b.2.1 ∧ a.2.2 < b.2.2)))

instance (a b : Nat × Nat × Nat) : Decidable (dateLt a b) := by
  unfold dateLt
  infer_instance

/-- Association-list lookup; models reading from a Go map (the maps of this
program are only ever extended key by key, so an association list with
distinct keys captures their contents). -/
def alookup {α β : Type} [DecidableEq α] : List (α × β) → α → Option β
  | [], _ => none
  | (k, v) :: rest, a => if k = a then some v else alookup rest a

/-- Association-list update: replace the binding of an existing key, or append
a new binding; models a Go map assignment. -/
def aupdate {α β : Type} [DecidableEq α] : List (α × β) → α → β → List (α × β)
  | [], a, v => [(a, v)]
  | (k, w) :: rest, a, v =>
    if k = a then (k, v) :: rest else (k, w) :: aupdate rest a v

/-- The normalized `weather.CurrentWeather` record (pkg/weather/provider.go). -/
structure CurrentWeather where
  location : String
  conditions : String
  temperature : Rat
  feelsLike : Rat
  tempMax : Rat
  tempMin : Rat
  humidity : Int
  windSpeed : Rat
deriving DecidableEq, Repr

/-- The normalized `weather.DailyForecast` record (pkg/weather/provider.go);
the `time.Time` date is represented as a (year, month, day) triple. -/
structure DailyForecast where
  date : Nat × Nat × Nat
  conditions : String
  high : Rat
  low : Rat
  windSpeed : Rat
  humidity : Int
deriving DecidableEq, Repr

/-- One decoded entry of openweather `ForecastData.List`, keeping the fields
the provider reads: `dt_txt`, `main.temp`, `main.temp_min`, `main.temp_max`,
`main.feels_like`, `main.humidity`, `wind.speed` and the list of
`weather[].description` strings. -/
structure FItem where
  dateText : String
  temp : Rat
  tempMin : Rat
  tempMax : Rat
  feelsLike : Rat
  humidity : Int
  windSpeed : Rat
  weather : List String
deriving DecidableEq, Repr

/-- Decoded openweather `ForecastData`, keeping the city name and sample list. -/
structure ForecastData where
  cityName : String
  list : List FItem
deriving DecidableEq, Repr

/-- Decoded openweather current-weather payload (`WeatherData`), keeping the
fields `GetCurrentWeather` reads. -/
structure WeatherData where
  name : String
  weather : List String
  temp : Rat
  tempMin : Rat
  tempMax : Rat
  feelsLike : Rat
  humidity : Int
  windSpeed : Rat
deriving DecidableEq, Repr

/-- The per-day accumulator `dailyData` of `processForecastData`
(openweather/provider.go, lines 188-194). -/
structure DailyData where
  high : Rat
  low : Rat
  description : String
  windSpeed : Rat
  humidity : Int
deriving DecidableEq, Repr

/-- openweather `GetCurrentWeather` after a successful fetch and decode
(lines 128-148): fail with "no weather data available" on an empty
`weather[]` array, otherwise build the normalized record from the payload. -/
def getCurrentWeatherOW (d : WeatherData) : Except String CurrentWeather :=
  match d.weather with
  | [] => .error "no weather data available"
  | w :: _ =>
    .ok ⟨d.name, w, d.temp, d.feelsLike, d.tempMax, d.tempMin, d.humidity, d.windSpeed⟩

/-- openweather `getCurrentFromForecast` (lines 169-185): `nil` when the
sample list or the first sample's `weather[]` array is empty. -/
def getCurrentFromForecast (data : ForecastData) : Option CurrentWeather :=
  match data.list with
  | [] => none
  | item :: _ =>
    match item.weather with
    | [] => none
    | w :: _ =>
      some ⟨data.cityName, w, item.temp, item.feelsLike, item.tempMax,
            item.tempMin, item.humidity, item.windSpeed⟩

/-- The date component of a sample: `strings.Split(item.DateText, " ")[0]`. -/
def keyOf (it : FItem) : Option String :=
  (goSplit it.dateText ' ').get? 0

/-- The hour component of a sample:
`strings.Split(strings.Split(item.DateText, " ")[1], ":")[0]`.
`none` when the date-time text has no space (index 1 panics in Go). -/
def hourOf (it : FItem) : Option String :=
  match (goSplit it.dateText ' ').get? 1 with
  | some t => (goSplit t ':').get? 0
  | none => none

/-- Whether a sample is grouped under date key `d` by `processForecastData`:
its date component is `d` and its hour component is not lexicographically
less than "06". -/
def retainedBy (it : FItem) (d : String) : Bool :=
  (keyOf it == some d) &&
    (match hourOf it with
     | some h => !(charsLt h.data "06".data)
     | none => false)

/-- All samples of the input that `processForecastData` groups under key `d`,
in input order. -/
def retainedFor (items : List FItem) (d : String) : List FItem :=
  items.filter (fun it => retainedBy it d)

/-- A sample whose `dt_txt` contains the substring "12:00:00"
(the noon-override test of lines 229-232). -/
def isNoon (it : FItem) : Bool :=
  goContains it.dateText "12:00:00"

/-- The retained noon samples of a day, in input order. -/
def noonsFor (items : List FItem) (d : String) : List FItem :=
  (retainedFor items d).filter isNoon

/-- The three running updates of the aggregation loop (lines 219-227):
`high`/`windSpeed` take the larger value, `low` the smaller. -/
def updDay (day0 : DailyData) (item : FItem) : DailyData :=
  { day0 with
    high := if day0.high < item.tempMax then item.tempMax else day0.high
    low := if item.tempMin < day0.low then item.tempMin else day0.low
    windSpeed := if day0.windSpeed < item.windSpeed then item.windSpeed else day0.windSpeed }

/-- The loop body of `processForecastData` (lines 198-233) for one sample:
split the date-time text, skip hours below "06", create the day's accumulator
on first sight (reading `weather[0]`, which panics when empty), apply the
running max/min/max updates, and apply the noon override (again reading
`weather[0]`).  `none` models a Go panic. -/
def stepItem (m : List (String × DailyData)) (item : FItem) : Option (List (String × DailyData)) :=
  match (goSplit item.dateText ' ').get? 0, (goSplit item.dateText ' ').get? 1 with
  | some date, some timeStr =>
    match (goSplit timeStr ':').get? 0 with
    | some hour =>
      if charsLt hour.data "06".data then some m
      else
        match (match alookup m date with
               | some day => some day
               | none =>
                 (item.weather.get? 0).map
                   (fun w => (⟨-1000, 1000, w, 0, item.humidity⟩ : DailyData))) with
        | none => none
        | some day0 =>
          match (if goContains item.dateText "12:00:00" then
                   (item.weather.get? 0).map
                     (fun w =>
                       { updDay day0 item with description := w, humidity := item.humidity })
                 else some (updDay day0 item)) with
          | none => none
          | some day2 => some (aupdate m date day2)
    | none => none
  | _, _ => none

/-- The whole grouping loop of `processForecastData` over the sample list. -/
def runItems : List FItem → List (String × DailyData) → Option (List (String × DailyData))
  | [], m => some m
  | it :: rest, m =>
    match stepItem m it with
    | none => none
    | some m' => runItems rest m'

/-- Insertion of a key into a list sorted ascending by the bytewise order. -/
def insertKey (a : String) : List String → List String
  | [] => [a]
  | b :: rest => if charsLt a.data b.data then a :: b :: rest else b :: insertKey a rest

/-- Ascending bytewise sort of the collected date keys; models
`sort.Strings(dates)` (lines 236-240).  The Go map is iterated in an
unspecified order, but its keys are distinct, so the sorted result is the
same for every iteration order. -/
def sortKeys : List String → List String
  | [] => []
  | a :: rest => insertKey a (sortKeys rest)

/-- The emitted record for one date key (lines 243-253). -/
def mkDF (d : String) (day : DailyData) : DailyForecast :=
  ⟨goDateOf d, day.description, day.high, day.low, day.windSpeed, day.humidity⟩

/-- The output loop of `processForecastData` (lines 242-254): one record per
sorted date key.  The map value is a pointer in Go, so a missing key would be
a nil dereference; that (unreachable) case is modelled as `none`. -/
def buildOut (m : List (String × DailyData)) : List String → Option (List DailyForecast)
  | [] => some []
  | d :: ds =>
    match alookup m d with
    | none => none
    | some day =>
      match buildOut m ds with
      | none => none
      | some rest => some (mkDF d day :: rest)

/-- openweather `processForecastData` (lines 187-257) on the decoded sample
list: group the samples by date, then emit one aggregated record per date in
ascending order of the date strings.  `none` models a Go panic. -/
def processForecastData (items : List FItem) : Option (List DailyForecast) :=
  match runItems items [] with
  | none => none
  | some m => buildOut m (sortKeys (m.map Prod.fst))

/-- Total restatement of the loop body for one retained sample, used to
characterize the accumulator contents (`headI` stands for the `weather[0]`
reads, which are known to succeed whenever `runItems` returns `some`). -/
def applyItem (acc : Option DailyData) (it : FItem) : DailyData :=
  if isNoon it then
    { updDay (match acc with
              | some day => day
              | none => ⟨-1000, 1000, it.weather.headI, 0, it.humidity⟩) it with
      description := it.weather.headI, humidity := it.humidity }
  else
    updDay (match acc with
            | some day => day
            | none => ⟨-1000, 1000, it.weather.headI, 0, it.humidity⟩) it

/-- Folding `applyItem` over the retained samples of one day. -/
def dayList (acc : Option DailyData) (its : List FItem) : Option DailyData :=
  its.foldl (fun a it => some (applyItem a it)) acc

/-- `v` is the maximum of the list `xs`. -/
def isMaxOf (v : Rat) (xs : List Rat) : Prop :=
  v ∈ xs ∧ ∀ x ∈ xs, x ≤ v

instance (v : Rat) (xs : List Rat) : Decidable (isMaxOf v xs) := by
  unfold isMaxOf
  infer_instance

/-- `v` is the minimum of the list `xs`. -/
def isMinOf (v : Rat) (xs : List Rat) : Prop :=
  v ∈ xs ∧ ∀ x ∈ xs, v ≤ x

instance (v : Rat) (xs : List Rat) : Decidable (isMinOf v xs) := by
  unfold isMinOf
  infer_instance

/-- A sample either is skipped by the hour filter, or panics, or its date key
parses under the Go layout "2006-01-02".  Hypothesis used by the amended
ordering claim. -/
def keyParses (it : FItem) : Bool :=
  match hourOf it with
  | none => true
  | some h =>
    if charsLt h.data "06".data then true
    else
      match keyOf it with
      | none => true
      | some k => (parseDateChars k.data).isSome

/-- Decoded openmeteo `WeatherResponse.Current` block. -/
structure OMCurrent where
  temperature : Rat
  windSpeed : Rat
  weatherCode : Int
  relativeHumidity : Int
deriving DecidableEq, Repr

/-- Decoded openmeteo `WeatherResponse.Daily` block: six parallel arrays. -/
structure OMDaily where
  time : List String
  tempMax : List Rat
  tempMin : List Rat
  windSpeed : List Rat
  weatherCode : List Int
  relativeHumidity : List Int
deriving DecidableEq, Repr

/-- Decoded openmeteo `WeatherResponse`. -/
structure OMResp where
  current : OMCurrent
  daily : OMDaily
deriving DecidableEq, Repr

/-- Decoded openmeteo `GeocodingResult` entry. -/
structure GeocodingResult where
  name : String
  state : String
  country : String
  latitude : Rat
  longitude : Rat
deriving DecidableEq, Repr

/-- The fixed WMO code table of `getWeatherDescription`
(openmeteo/provider.go, lines 285-310). -/
def codeTable : List (Int × String) :=
  [(0, "clear sky"), (1, "mainly clear"), (2, "partly cloudy"), (3, "overcast"),
   (45, "foggy"), (48, "depositing rime fog"),
   (51, "light drizzle"), (53, "moderate drizzle"), (55, "dense drizzle"),
   (61, "slight rain"), (63, "moderate rain"), (65, "heavy rain"),
   (71, "slight snow"), (73, "moderate snow"), (75, "heavy snow"), (77, "snow grains"),
   (80, "slight rain showers"), (81, "moderate rain showers"), (82, "violent rain showers"),
   (85, "slight snow showers"), (86, "heavy snow showers"),
   (95, "thunderstorm"), (96, "thunderstorm with slight hail"),
   (99, "thunderstorm with heavy hail")]

/-- openmeteo `getWeatherDescription` (lines 283-316): table lookup with
"unknown" for any code absent from the table. -/
def getWeatherDescription (code : Int) : String :=
  match alookup codeTable code with
  | some desc => desc
  | none => "unknown"

/-- The fixed state name to abbreviation table of `matchedState`
(lines 319-370), all 50 US states. -/
def stateTable : List (String × String) :=
  [("Alabama", "AL"), ("Alaska", "AK"), ("Arizona", "AZ"), ("Arkansas", "AR"),
   ("California", "CA"), ("Colorado", "CO"), ("Connecticut", "CT"), ("Delaware", "DE"),
   ("Florida", "FL"), ("Georgia", "GA"), ("Hawaii", "HI"), ("Idaho", "ID"),
   ("Illinois", "IL"), ("Indiana", "IN"), ("Iowa", "IA"), ("Kansas", "KS"),
   ("Kentucky", "KY"), ("Louisiana", "LA"), ("Maine", "ME"), ("Maryland", "MD"),
   ("Massachusetts", "MA"), ("Michigan", "MI"), ("Minnesota", "MN"), ("Mississippi", "MS"),
   ("Missouri", "MO"), ("Montana", "MT"), ("Nebraska", "NE"), ("Nevada", "NV"),
   ("New Hampshire", "NH"), ("New Jersey", "NJ"), ("New Mexico", "NM"), ("New York", "NY"),
   ("North Carolina", "NC"), ("North Dakota", "ND"), ("Ohio", "OH"), ("Oklahoma", "OK"),
   ("Oregon", "OR"), ("Pennsylvania", "PA"), ("Rhode Island", "RI"), ("South Carolina", "SC"),
   ("South Dakota", "SD"), ("Tennessee", "TN"), ("Texas", "TX"), ("Utah", "UT"),
   ("Vermont", "VT"), ("Virginia", "VA"), ("Washington", "WA"), ("West Virginia", "WV"),
   ("Wisconsin", "WI"), ("Wyoming", "WY")]

/-- openmeteo `matchedState` (lines 318-377): `true` exactly when the full
state name is in the table and maps to the given abbreviation. -/
def matchedState (fullName abbr : String) : Bool :=
  match alookup stateTable fullName with
  | some ab => ab == abbr
  | none => false

/-- Go regexp `^[0-9]{5}$` on a string: exactly five ASCII digits. -/
def isZip (s : String) : Bool :=
  s.data.length == 5 && s.data.all isDig

/-- ASCII letter or space, the Go regexp class `[a-zA-Z ]`. -/
def isAlphaSpace (c : Char) : Bool :=
  (65 ≤ c.toNat && c.toNat ≤ 90) || (97 ≤ c.toNat && c.toNat ≤ 122) || c = ' '

/-- ASCII uppercase letter, the Go regexp class `[A-Z]`. -/
def isUpperA (c : Char) : Bool :=
  65 ≤ c.toNat && c.toNat ≤ 90

/-- Go regexp `^[a-zA-Z ]+, ?[A-Z]{2}$`, decided from the end of the string:
two uppercase letters, an optional single space, a comma, and a nonempty
letters-and-spaces prefix. -/
def isCitySt (s : String) : Bool :=
  match s.data.reverse with
  | c2 :: c1 :: rest =>
    isUpperA c1 && isUpperA c2 &&
      (match (match rest with
              | ' ' :: rest' => rest'
              | _ => rest) with
       | ',' :: front => !front.isEmpty && front.all isAlphaSpace
       | _ => false)
  | _ => false

/-- The location-classification prefix of openmeteo `getCoordinates`
(lines 105-121), returning the query name, the `count` parameter and the
extracted state abbreviation.  Note `var count int` starts at Go's zero value
and the freeform branch never assigns it. -/
def getCoordinatesParams (location : String) : String × Int × String :=
  if isZip location then (location, 1, "")
  else if isCitySt location then
    match goSplit location ',' with
    | [p0, p1] => (goTrim p0, 10, goTrim p1)
    | _ => (location, 10, "")
  else (location, 0, "")

/-- First geocoding candidate accepted by the state filter
(the loop of lines 139-143). -/
def findFirst (st : String) : List GeocodingResult → Option GeocodingResult
  | [] => none
  | r :: rest => if matchedState r.state st then some r else findFirst st rest

/-- Candidate selection of openmeteo `getCoordinates` after decoding the
geocoding response (lines 131-147): empty result set fails, an extracted
state keeps the first candidate whose region matches, otherwise the first
candidate is taken unconditionally. -/
def selectResult (location st : String) (results : List GeocodingResult) :
    Except String GeocodingResult :=
  match results with
  | [] => .error ("location not found: " ++ location)
  | r0 :: _ =>
    if st = "" then .ok r0
    else
      match findFirst st results with
      | some r => .ok r
      | none => .error ("location not found: " ++ location)

/-- The normalized current-weather record openmeteo builds from a decoded
response; the identical construction appears in `GetCurrentWeather`
(lines 174-189) and in `GetForecast` (lines 229-244). -/
def omCurrentFrom (name : String) (data : OMResp) : CurrentWeather :=
  let hiLo : Rat × Rat :=
    if 0 < data.daily.tempMax.length ∧ 0 < data.daily.tempMin.length then
      (data.daily.tempMax.headI, data.daily.tempMin.headI)
    else (0, 0)
  ⟨name, getWeatherDescription data.current.weatherCode, data.current.temperature,
   data.current.temperature, hiLo.1, hiLo.2, data.current.relativeHumidity,
   data.current.windSpeed⟩

/-- One iteration of the `GetForecast` daily loop (lines 216-227): read index
`i+1` of each of the six daily arrays; any out-of-range index panics in Go,
modelled as `none`. -/
def buildDailyItem (d : OMDaily) (i : Nat) : Option DailyForecast :=
  match d.time.get? (i + 1), d.weatherCode.get? (i + 1), d.tempMax.get? (i + 1),
        d.tempMin.get? (i + 1), d.windSpeed.get? (i + 1), d.relativeHumidity.get? (i + 1) with
  | some t, some c, some hi, some lo, some w, some hm =>
    some ⟨goDateOf t, getWeatherDescription c, hi, lo, w, hm⟩
  | _, _, _, _, _, _ => none

/-- The `GetForecast` daily loop: `n` iterations starting at index `i`
(the source runs `buildLoop d 5 0`). -/
def buildLoop (d : OMDaily) : Nat → Nat → Option (List DailyForecast)
  | 0, _ => some []
  | n + 1, i =>
    match buildDailyItem d i with
    | none => none
    | some item =>
      match buildLoop d n (i + 1) with
      | none => none
      | some rest => some (item :: rest)

/-- openmeteo `GetForecast` after a successful fetch and decode
(lines 211-227): the insufficient-data guard `len(Daily.Time) < 2`, then the
five-entry construction loop.  A Go panic inside the loop is modelled as a
distinguished error value. -/
def getForecastItems (d : OMDaily) : Except String (List DailyForecast) :=
  if d.time.length < 2 then .error "insufficient forecast data available"
  else
    match buildLoop d 5 0 with
    | none => .error "panic: index out of range"
    | some l => .ok l

/-- The running-maximum update of the aggregation loop:
`if x > acc { acc = x }`. -/
def goMax (a x : Rat) : Rat :=
  if a < x then x else a

/-- The running-minimum update of the aggregation loop:
`if x < acc { acc = x }`. -/
def goMin (a x : Rat) : Rat :=
  if x < a then x else a

/-! ## Helper lemmas -/

theorem get?_isSome_iff {α : Type} (l : List α) (n : Nat) :
    (l.get? n).isSome = true ↔ n < l.length := by
  induction l generalizing n with
  | nil => cases n <;> simp [List.get?]
  | cons a rest ih =>
    cases n with
    | zero => simp [List.get?]
    | succ k => simpa [List.get?, Nat.succ_lt_succ_iff] using ih k

theorem get?_eq_some_get {α : Type} (l : List α) (n : Nat) (h : n < l.length) :
    l.get? n = some (l.get ⟨n, h⟩) := by
  induction l generalizing n with
  | nil => simp at h
  | cons a rest ih =>
    cases n with
    | zero => simp [List.get?]
    | succ k =>
      have := ih k (Nat.succ_lt_succ_iff.mp h)
      simp [List.get?, this]

theorem findFirst_some (st : String) (results : List GeocodingResult) (r : GeocodingResult)
    (h : findFirst st results = some r) :
    matchedState r.state st = true ∧
      ∃ i, results.get? i = some r ∧
        ∀ j, j < i → ∀ q, results.get? j = some q → matchedState q.state st = false := by
  induction results with
  | nil => simp [findFirst] at h
  | cons a rest ih =>
    by_cases hm : matchedState a.state st
    · simp only [findFirst, hm, if_true, Option.some.injEq] at h
      subst h
      exact ⟨hm, 0, rfl, fun j hj => absurd hj (Nat.not_lt_zero j)⟩
    · simp only [findFirst, hm, if_false, Bool.false_eq_true] at h
      obtain ⟨h1, i, hi, hj⟩ := ih h
      refine ⟨h1, i + 1, by simpa [List.get?] using hi, ?_⟩
      intro j hjlt q hq
      cases j with
      | zero =>
        simp only [List.get?, Option.some.injEq] at hq
        subst hq
        exact Bool.eq_false_iff.mpr hm
      | succ k =>
        exact hj k (Nat.lt_of_succ_lt_succ hjlt) q (by simpa [List.get?] using hq)

theorem findFirst_none (st : String) (results : List GeocodingResult)
    (h : ∀ r ∈ results, matchedState r.state st = false) :
    findFirst st results = none := by
  induction results with
  | nil => rfl
  | cons a rest ih =>
    have ha := h a (List.mem_cons_self a rest)
    simp only [findFirst, ha, Bool.false_eq_true, if_false]
    exact ih fun r hr => h r (List.mem_cons_of_mem a hr)

/-! ## Claim theorems: geocoding and weather codes -/

/-- C9: `getWeatherDescription` is total on integer codes: a code present in
the fixed table yields the table's description, and any other code yields
"unknown"; being a total Lean function, it cannot fail. -/
theorem c9_weather_code_total (code : Int) :
    (∀ d, alookup codeTable code = some d → getWeatherDescription code = d) ∧
    (alookup codeTable code = none → getWeatherDescription code = "unknown") := by
  constructor
  · intro d h
    simp [getWeatherDescription, h]
  · intro h
    simp [getWeatherDescription, h]

theorem c9_weather_code_total_witness :
    (alookup codeTable 42 = none ∧ getWeatherDescription 42 = "unknown") ∧
      (alookup codeTable 3 = some "overcast" ∧ getWeatherDescription 3 = "overcast") :=
  ⟨⟨by decide, (c9_weather_code_total 42).2 (by decide)⟩,
   ⟨by decide, (c9_weather_code_total 3).1 "overcast" (by decide)⟩⟩

/-- C10: when the decoded openweather payload has an empty `weather[]` array,
`GetCurrentWeather` returns the domain error "no weather data available"
(so no `Weather[0]` access is reached). -/
theorem c10_empty_weather_error (d : WeatherData) (h : d.weather = []) :
    getCurrentWeatherOW d = .error "no weather data available" := by
  simp only [getCurrentWeatherOW, h]

theorem c10_empty_weather_error_witness :
    getCurrentWeatherOW
        { name := "Boston", weather := [], temp := 50, tempMin := 40, tempMax := 60,
          feelsLike := 52, humidity := 70, windSpeed := 5 } =
      .error "no weather data available" :=
  c10_empty_weather_error _ rfl

/-- C5: with a state abbreviation extracted from the request, `getCoordinates`
returns the first candidate whose `admin1` name maps through the 50-state
table to that abbreviation (so any candidate returned does match, and earlier
candidates do not), and errors with "location not found" when no candidate
matches; with no state extracted it returns the first candidate
unconditionally. -/
theorem c5_state_filter (location st : String) (results : List GeocodingResult) :
    (st ≠ "" →
      (∀ r, selectResult location st results = .ok r →
        matchedState r.state st = true ∧
          ∃ i, results.get? i = some r ∧
            ∀ j, j < i → ∀ q, results.get? j = some q → matchedState q.state st = false) ∧
      ((∀ r ∈ results, matchedState r.state st = false) →
        selectResult location st results = .error ("location not found: " ++ location))) ∧
    (st = "" → ∀ r0 rest, results = r0 :: rest → selectResult location st results = .ok r0) := by
  constructor
  · intro hst
    constructor
    · intro r hr
      cases results with
      | nil => simp [selectResult] at hr
      | cons r0 rest =>
        rcases hf : findFirst st (r0 :: rest) with _ | q
        · simp [selectResult, hst, hf] at hr
        · simp only [selectResult] at hr
          rw [if_neg hst, hf] at hr
          simp only [Except.ok.injEq] at hr
          subst hr
          exact findFirst_some st (r0 :: rest) q hf
    · intro hall
      cases results with
      | nil => simp [selectResult]
      | cons r0 rest =>
        simp only [selectResult, if_neg hst, findFirst_none st (r0 :: rest) hall]
  · intro hst r0 rest hres
    subst hres
    simp [selectResult, hst]

theorem c5_state_filter_witness :
    selectResult "Clinton" "IA"
        [⟨"Clinton", "Massachusetts", "United States", 42, -71⟩,
         ⟨"Clinton", "Iowa", "United States", 41, -90⟩] =
        .ok ⟨"Clinton", "Iowa", "United States", 41, -90⟩ ∧
      selectResult "Clinton" "XX"
        [⟨"Clinton", "Iowa", "United States", 41, -90⟩] =
        .error ("location not found: " ++ "Clinton") ∧
      selectResult "Clinton" ""
        [⟨"Clinton", "Massachusetts", "United States", 42, -71⟩,
         ⟨"Clinton", "Iowa", "United States", 41, -90⟩] =
        .ok ⟨"Clinton", "Massachusetts", "United States", 42, -71⟩ :=
  ⟨rfl,
   ((c5_state_filter "Clinton" "XX" _).1 (by decide)).2 (by decide),
   (c5_state_filter "Clinton" "" _).2 rfl _ _ rfl⟩

/-- C7 fails as stated: the freeform branch of `getCoordinates` never assigns
`count`, so the request is issued with Go's zero value 0, not 1. -/
theorem c7_count_counterexample :
    getCoordinatesParams "Boston" = ("Boston", 0, "") ∧
      (getCoordinatesParams "Boston").2.1 ≠ 1 := by
  decide

/-- C7 (amended): the geocoding `count` parameter is 1 for a pure 5-digit
location, 10 for a "name, ST" location, and 0 (the never-assigned Go zero
value) for any other freeform name. -/
theorem c7_geocode_count (loc : String) :
    (isZip loc = true → getCoordinatesParams loc = (loc, 1, "")) ∧
    (isZip loc = false → isCitySt loc = true → (getCoordinatesParams loc).2.1 = 10) ∧
    (isZip loc = false → isCitySt loc = false → getCoordinatesParams loc = (loc, 0, "")) := by
  refine ⟨fun h => ?_, fun h h' => ?_, fun h h' => ?_⟩
  · simp [getCoordinatesParams, h]
  · rcases hG : goSplit loc ',' with _ | ⟨p0, _ | ⟨p1, _ | ⟨p2, ps⟩⟩⟩ <;>
      simp [getCoordinatesParams, h, h', hG]
  · simp [getCoordinatesParams, h, h']

theorem c7_geocode_count_witness :
    getCoordinatesParams "02108" = ("02108", 1, "") ∧
      (getCoordinatesParams "Boston, MA").2.1 = 10 ∧
      getCoordinatesParams "Boston" = ("Boston", 0, "") :=
  ⟨(c7_geocode_count "02108").1 (by decide),
   (c7_geocode_count "Boston, MA").2.1 (by decide) (by decide),
   (c7_geocode_count "Boston").2.2 (by decide) (by decide)⟩

/-! ## Helper lemmas for the openmeteo forecast loop -/

theorem buildDailyItem_ok (d : OMDaily) (i : Nat)
    (ht : i + 1 < d.time.length) (hc : i + 1 < d.weatherCode.length)
    (hmax : i + 1 < d.tempMax.length) (hmin : i + 1 < d.tempMin.length)
    (hw : i + 1 < d.windSpeed.length) (hh : i + 1 < d.relativeHumidity.length) :
    buildDailyItem d i =
      some ⟨goDateOf (d.time.get ⟨i + 1, ht⟩),
            getWeatherDescription (d.weatherCode.get ⟨i + 1, hc⟩),
            d.tempMax.get ⟨i + 1, hmax⟩, d.tempMin.get ⟨i + 1, hmin⟩,
            d.windSpeed.get ⟨i + 1, hw⟩, d.relativeHumidity.get ⟨i + 1, hh⟩⟩ := by
  unfold buildDailyItem
  rw [get?_eq_some_get _ _ ht, get?_eq_some_get _ _ hc, get?_eq_some_get _ _ hmax,
      get?_eq_some_get _ _ hmin, get?_eq_some_get _ _ hw, get?_eq_some_get _ _ hh]

theorem buildDailyItem_bounds (d : OMDaily) (i : Nat) (item : DailyForecast)
    (h : buildDailyItem d i = some item) :
    i + 1 < d.time.length ∧ i + 1 < d.weatherCode.length ∧
      i + 1 < d.tempMax.length ∧ i + 1 < d.tempMin.length ∧
      i + 1 < d.windSpeed.length ∧ i + 1 < d.relativeHumidity.length := by
  rcases h1 : d.time.get? (i + 1) with _ | t
  · rw [List.get?_eq_getElem?] at h1
    simp [buildDailyItem, h1] at h
  rcases h2 : d.weatherCode.get? (i + 1) with _ | c
  · rw [List.get?_eq_getElem?] at h1 h2
    simp [buildDailyItem, h1, h2] at h
  rcases h3 : d.tempMax.get? (i + 1) with _ | hi
  · rw [List.get?_eq_getElem?] at h1 h2 h3
    simp [buildDailyItem, h1, h2, h3] at h
  rcases h4 : d.tempMin.get? (i + 1) with _ | lo
  · rw [List.get?_eq_getElem?] at h1 h2 h3 h4
    simp [buildDailyItem, h1, h2, h3, h4] at h
  rcases h5 : d.windSpeed.get? (i + 1) with _ | w
  · rw [List.get?_eq_getElem?] at h1 h2 h3 h4 h5
    simp [buildDailyItem, h1, h2, h3, h4, h5] at h
  rcases h6 : d.relativeHumidity.get? (i + 1) with _ | hm
  · rw [List.get?_eq_getElem?] at h1 h2 h3 h4 h5 h6
    simp [buildDailyItem, h1, h2, h3, h4, h5, h6] at h
  refine ⟨?_, ?_, ?_, ?_, ?_, ?_⟩ <;> rw [← get?_isSome_iff]
  · rw [h1]; rfl
  · rw [h2]; rfl
  · rw [h3]; rfl
  · rw [h4]; rfl
  · rw [h5]; rfl
  · rw [h6]; rfl

theorem buildLoop_split (d : OMDaily) (n i : Nat) (l : List DailyForecast)
    (h : buildLoop d (n + 1) i = some l) :
    ∃ item rest, buildDailyItem d i = some item ∧ buildLoop d n (i + 1) = some rest ∧
      l = item :: rest := by
  rcases hb : buildDailyItem d i with _ | item
  · simp [buildLoop, hb] at h
  · rcases hr : buildLoop d n (i + 1) with _ | rest
    · simp [buildLoop, hb, hr] at h
    · simp only [buildLoop, hb, hr, Option.some.injEq] at h
      exact ⟨item, rest, rfl, rfl, h.symm⟩

theorem buildLoop_ok (d : OMDaily) (n : Nat) :
    ∀ i, i + n + 1 ≤ d.time.length → i + n + 1 ≤ d.weatherCode.length →
      i + n + 1 ≤ d.tempMax.length → i + n + 1 ≤ d.tempMin.length →
      i + n + 1 ≤ d.windSpeed.length → i + n + 1 ≤ d.relativeHumidity.length →
      ∃ l, buildLoop d n i = some l ∧ l.length = n ∧
        ∀ k, k < n →
          ∃ t c hi lo w hm,
            d.time.get? (i + k + 1) = some t ∧ d.weatherCode.get? (i + k + 1) = some c ∧
            d.tempMax.get? (i + k + 1) = some hi ∧ d.tempMin.get? (i + k + 1) = some lo ∧
            d.windSpeed.get? (i + k + 1) = some w ∧
            d.relativeHumidity.get? (i + k + 1) = some hm ∧
            l.get? k = some ⟨goDateOf t, getWeatherDescription c, hi, lo, w, hm⟩ := by
  induction n with
  | zero =>
    intro i _ _ _ _ _ _
    exact ⟨[], rfl, rfl, fun k hk => absurd hk (Nat.not_lt_zero k)⟩
  | succ m ih =>
    intro i g1 g2 g3 g4 g5 g6
    have ht : i + 1 < d.time.length := by omega
    have hc : i + 1 < d.weatherCode.length := by omega
    have hmax : i + 1 < d.tempMax.length := by omega
    have hmin : i + 1 < d.tempMin.length := by omega
    have hw : i + 1 < d.windSpeed.length := by omega
    have hh : i + 1 < d.relativeHumidity.length := by omega
    obtain ⟨rest, hrest, hlen, hk⟩ :=
      ih (i + 1) (by omega) (by omega) (by omega) (by omega) (by omega) (by omega)
    refine ⟨(⟨goDateOf (d.time.get ⟨i + 1, ht⟩),
             getWeatherDescription (d.weatherCode.get ⟨i + 1, hc⟩),
             d.tempMax.get ⟨i + 1, hmax⟩, d.tempMin.get ⟨i + 1, hmin⟩,
             d.windSpeed.get ⟨i + 1, hw⟩,
             d.relativeHumidity.get ⟨i + 1, hh⟩⟩ : DailyForecast) :: rest,
           ?_, by simp [hlen], ?_⟩
    · simp only [buildLoop, buildDailyItem_ok d i ht hc hmax hmin hw hh, hrest]
    · intro k hklt
      cases k with
      | zero =>
        exact ⟨_, _, _, _, _, _, get?_eq_some_get _ _ ht, get?_eq_some_get _ _ hc,
               get?_eq_some_get _ _ hmax, get?_eq_some_get _ _ hmin,
               get?_eq_some_get _ _ hw, get?_eq_some_get _ _ hh, rfl⟩
      | succ k' =>
        obtain ⟨t, c, hi', lo, w, hm, p1, p2, p3, p4, p5, p6, p7⟩ :=
          hk k' (Nat.lt_of_succ_lt_succ hklt)
        have e : i + 1 + k' + 1 = i + (k' + 1) + 1 := by omega
        rw [e] at p1 p2 p3 p4 p5 p6
        exact ⟨t, c, hi', lo, w, hm, p1, p2, p3, p4, p5, p6, by simpa [List.get?] using p7⟩

/-! ## Claim theorems: openmeteo forecast construction -/

/-- C2: for a decoded openmeteo response whose six daily arrays all have
length at least 6, `GetForecast` produces exactly 5 daily entries, entry `k`
being built from index `k+1` of every source array (index 0 is discarded). -/
theorem c2_forecast_offsets (d : OMDaily)
    (g1 : 6 ≤ d.time.length) (g2 : 6 ≤ d.weatherCode.length) (g3 : 6 ≤ d.tempMax.length)
    (g4 : 6 ≤ d.tempMin.length) (g5 : 6 ≤ d.windSpeed.length)
    (g6 : 6 ≤ d.relativeHumidity.length) :
    ∃ l, getForecastItems d = .ok l ∧ l.length = 5 ∧
      ∀ k, k < 5 →
        ∃ t c hi lo w hm,
          d.time.get? (k + 1) = some t ∧ d.weatherCode.get? (k + 1) = some c ∧
          d.tempMax.get? (k + 1) = some hi ∧ d.tempMin.get? (k + 1) = some lo ∧
          d.windSpeed.get? (k + 1) = some w ∧ d.relativeHumidity.get? (k + 1) = some hm ∧
          l.get? k = some ⟨goDateOf t, getWeatherDescription c, hi, lo, w, hm⟩ := by
  obtain ⟨l, hl, hlen, hk⟩ :=
    buildLoop_ok d 5 0 (by omega) (by omega) (by omega) (by omega) (by omega) (by omega)
  refine ⟨l, ?_, hlen, ?_⟩
  · unfold getForecastItems
    rw [if_neg (by omega), hl]
  · intro k hk5
    have h := hk k hk5
    simpa [Nat.zero_add] using h

theorem c2_forecast_offsets_witness :
    ∃ l, getForecastItems
        { time := ["2024-01-01", "2024-01-02", "2024-01-03", "2024-01-04",
                   "2024-01-05", "2024-01-06"],
          tempMax := [1, 2, 3, 4, 5, 6], tempMin := [0, 1, 2, 3, 4, 5],
          windSpeed := [1, 1, 1, 1, 1, 1], weatherCode := [0, 1, 2, 3, 45, 42],
          relativeHumidity := [10, 20, 30, 40, 50, 60] } = .ok l ∧ l.length = 5 ∧
      ∀ k, k < 5 →
        ∃ t c hi lo w hm,
          ["2024-01-01", "2024-01-02", "2024-01-03", "2024-01-04",
           "2024-01-05", "2024-01-06"].get? (k + 1) = some t ∧
          ([0, 1, 2, 3, 45, 42] : List Int).get? (k + 1) = some c ∧
          ([1, 2, 3, 4, 5, 6] : List Rat).get? (k + 1) = some hi ∧
          ([0, 1, 2, 3, 4, 5] : List Rat).get? (k + 1) = some lo ∧
          ([1, 1, 1, 1, 1, 1] : List Rat).get? (k + 1) = some w ∧
          ([10, 20, 30, 40, 50, 60] : List Int).get? (k + 1) = some hm ∧
          l.get? k = some ⟨goDateOf t, getWeatherDescription c, hi, lo, w, hm⟩ :=
  c2_forecast_offsets _ (by decide) (by decide) (by decide) (by decide) (by decide) (by decide)

/-- C6: the insufficient-data guard `len(Daily.Time) >= 2` does not protect
the fixed-offset accesses of the forecast loop: a response exists that passes
the guard yet panics in the loop, and the loop stays in bounds exactly when
every one of the six daily arrays has length at least 6. -/
theorem c6_guard_gap :
    (∃ d : OMDaily, 2 ≤ d.time.length ∧ buildLoop d 5 0 = none ∧
      getForecastItems d = .error "panic: index out of range") ∧
    (∀ d : OMDaily, ∀ l, buildLoop d 5 0 = some l →
      6 ≤ d.time.length ∧ 6 ≤ d.weatherCode.length ∧ 6 ≤ d.tempMax.length ∧
        6 ≤ d.tempMin.length ∧ 6 ≤ d.windSpeed.length ∧ 6 ≤ d.relativeHumidity.length) ∧
    (∀ d : OMDaily, 6 ≤ d.time.length → 6 ≤ d.weatherCode.length → 6 ≤ d.tempMax.length →
      6 ≤ d.tempMin.length → 6 ≤ d.windSpeed.length → 6 ≤ d.relativeHumidity.length →
      ∃ l, buildLoop d 5 0 = some l) := by
  refine ⟨⟨⟨["a", "b"], [], [], [], [], []⟩, by decide, by decide, rfl⟩, ?_, ?_⟩
  · intro d l h
    obtain ⟨i0, r0, hb0, h0, _⟩ := buildLoop_split d 4 0 l h
    obtain ⟨i1, r1, hb1, h1, _⟩ := buildLoop_split d 3 1 r0 h0
    obtain ⟨i2, r2, hb2, h2, _⟩ := buildLoop_split d 2 2 r1 h1
    obtain ⟨i3, r3, hb3, h3, _⟩ := buildLoop_split d 1 3 r2 h2
    obtain ⟨i4, r4, hb4, _, _⟩ := buildLoop_split d 0 4 r3 h3
    obtain ⟨b1, b2, b3, b4, b5, b6⟩ := buildDailyItem_bounds d 4 i4 hb4
    exact ⟨by omega, by omega, by omega, by omega, by omega, by omega⟩
  · intro d g1 g2 g3 g4 g5 g6
    obtain ⟨l, hl, -, -⟩ :=
      buildLoop_ok d 5 0 (by omega) (by omega) (by omega) (by omega) (by omega) (by omega)
    exact ⟨l, hl⟩

/-! ## Claim theorems: humidity pass-through -/

/-- C8 fails as stated: the providers copy the decoded humidity field
unchanged, so a payload with humidity 150 yields a `CurrentWeather` whose
humidity is 150, outside 0..100. -/
theorem c8_humidity_counterexample :
    getCurrentWeatherOW
        { name := "X", weather := ["clear"], temp := 50, tempMin := 40, tempMax := 60,
          feelsLike := 52, humidity := 150, windSpeed := 5 } =
      .ok { location := "X", conditions := "clear", temperature := 50, feelsLike := 52,
            tempMax := 60, tempMin := 40, humidity := 150, windSpeed := 5 } ∧
      ¬ ((150 : Int) ≤ 100) :=
  ⟨rfl, by decide⟩

/-- C8 (amended): each provider copies the decoded payload's humidity field
into the returned `CurrentWeather` unchanged, so the result's humidity lies
in 0..100 exactly when the payload's does: for openweather
`GetCurrentWeather`, for the current block embedded by openweather
`GetForecast`, and for the openmeteo current-weather construction used by
both of its entry points. -/
theorem c8_humidity_passthrough :
    (∀ d : WeatherData, 0 ≤ d.humidity → d.humidity ≤ 100 →
      ∀ cw, getCurrentWeatherOW d = .ok cw → 0 ≤ cw.humidity ∧ cw.humidity ≤ 100) ∧
    (∀ f : ForecastData, ∀ it0, f.list.head? = some it0 → 0 ≤ it0.humidity →
      it0.humidity ≤ 100 →
      ∀ cw, getCurrentFromForecast f = some cw → 0 ≤ cw.humidity ∧ cw.humidity ≤ 100) ∧
    (∀ name : String, ∀ data : OMResp, 0 ≤ data.current.relativeHumidity →
      data.current.relativeHumidity ≤ 100 →
      0 ≤ (omCurrentFrom name data).humidity ∧ (omCurrentFrom name data).humidity ≤ 100) := by
  refine ⟨?_, ?_, ?_⟩
  · intro d h0 h1 cw hcw
    rcases hw : d.weather with _ | ⟨w, ws⟩
    · simp [getCurrentWeatherOW, hw] at hcw
    · simp only [getCurrentWeatherOW, hw, Except.ok.injEq] at hcw
      subst hcw
      exact ⟨h0, h1⟩
  · intro f it0 hhead h0 h1 cw hcw
    rcases hl : f.list with _ | ⟨a, rest⟩
    · simp [getCurrentFromForecast, hl] at hcw
    · rw [hl] at hhead
      simp only [List.head?] at hhead
      rcases hwa : a.weather with _ | ⟨w, ws⟩
      · simp [getCurrentFromForecast, hl, hwa] at hcw
      · simp only [getCurrentFromForecast, hl, hwa, Option.some.injEq] at hcw
        subst hcw
        cases hhead
        exact ⟨h0, h1⟩
  · intro name data h0 h1
    exact ⟨h0, h1⟩

theorem c8_humidity_passthrough_witness :
    0 ≤ (omCurrentFrom "Boston" ⟨⟨50, 5, 0, 62⟩, ⟨[], [], [], [], [], []⟩⟩).humidity ∧
      (omCurrentFrom "Boston" ⟨⟨50, 5, 0, 62⟩, ⟨[], [], [], [], [], []⟩⟩).humidity ≤ 100 :=
  c8_humidity_passthrough.2.2 "Boston" _ (by decide) (by decide)

/-! ## Association-list lemmas -/

theorem alookup_aupdate_self {α β : Type} [DecidableEq α] (m : List (α × β)) (k : α) (v : β) :
    alookup (aupdate m k v) k = some v := by
  induction m with
  | nil => simp [aupdate, alookup]
  | cons p rest ih =>
    obtain ⟨a, b⟩ := p
    by_cases hak : a = k
    · simp [aupdate, alookup, hak]
    · simp [aupdate, alookup, hak, ih]

theorem alookup_aupdate_ne {α β : Type} [DecidableEq α] (m : List (α × β)) (k d : α) (v : β)
    (hkd : k ≠ d) : alookup (aupdate m k v) d = alookup m d := by
  induction m with
  | nil => simp [aupdate, alookup, hkd]
  | cons p rest ih =>
    obtain ⟨a, b⟩ := p
    by_cases hak : a = k
    · subst hak
      simp [aupdate, alookup, hkd]
    · simp [aupdate, alookup, hak, ih]

theorem alookup_none_iff {α β : Type} [DecidableEq α] (m : List (α × β)) (k : α) :
    alookup m k = none ↔ k ∉ m.map Prod.fst := by
  induction m with
  | nil => simp [alookup]
  | cons p rest ih =>
    obtain ⟨a, b⟩ := p
    by_cases hak : a = k
    · simp [alookup, hak]
    · simp [alookup, hak, ih, Ne.symm hak]

theorem aupdate_keys_some {α β : Type} [DecidableEq α] (m : List (α × β)) (k : α) (v : β)
    (h : (alookup m k).isSome = true) :
    (aupdate m k v).map Prod.fst = m.map Prod.fst := by
  induction m with
  | nil => simp [alookup] at h
  | cons p rest ih =>
    obtain ⟨a, b⟩ := p
    by_cases hak : a = k
    · simp [aupdate, hak]
    · simp only [alookup, hak, if_false] at h
      simp [aupdate, hak, ih h]

theorem aupdate_keys_none {α β : Type} [DecidableEq α] (m : List (α × β)) (k : α) (v : β)
    (h : alookup m k = none) :
    (aupdate m k v).map Prod.fst = m.map Prod.fst ++ [k] := by
  induction m with
  | nil => simp [aupdate]
  | cons p rest ih =>
    obtain ⟨a, b⟩ := p
    by_cases hak : a = k
    · simp [alookup, hak] at h
    · simp only [alookup, hak, if_false] at h
      simp [aupdate, hak, ih h]

theorem aupdate_keys_nodup {α β : Type} [DecidableEq α] (m : List (α × β)) (k : α) (v : β)
    (h : (m.map Prod.fst).Nodup) : ((aupdate m k v).map Prod.fst).Nodup := by
  rcases hl : alookup m k with _ | w
  · rw [aupdate_keys_none m k v hl]
    have hk : k ∉ m.map Prod.fst := (alookup_none_iff m k).mp hl
    simp [List.nodup_append, h, hk]
  · rw [aupdate_keys_some m k v (by rw [hl]; rfl)]
    exact h

/-! ## Characterization of the openweather aggregation loop -/

theorem headI_of_get_zero (l : List String) (w : String) (h : l.get? 0 = some w) :
    l.headI = w := by
  cases l with
  | nil => simp [List.get?] at h
  | cons a rest =>
    simp only [List.get?, Option.some.injEq] at h
    simpa using h

theorem stepItem_lookup (m : List (String × DailyData)) (it : FItem)
    (m' : List (String × DailyData)) (h : stepItem m it = some m') (d : String) :
    alookup m' d =
      if retainedBy it d then some (applyItem (alookup m d) it) else alookup m d := by
  unfold stepItem at h
  split at h
  next date timeStr hk ht =>
    split at h
    next hour hh =>
      have hkey : keyOf it = some date := hk
      have hhour : hourOf it = some hour := by
        unfold hourOf
        rw [ht]
        exact hh
      by_cases hf : charsLt hour.data "06".data = true
      · rw [if_pos hf] at h
        have hm := Option.some.inj h
        subst hm
        have hrb : retainedBy it d = false := by
          simp [retainedBy, hhour, hf]
        rw [hrb]
        simp
      · have hf' : charsLt hour.data "06".data = false := Bool.eq_false_iff.mpr hf
        rw [if_neg hf] at h
        split at h
        next heq1 => exact Option.noConfusion h
        next day0 heq1 =>
          split at h
          next heq2 => exact Option.noConfusion h
          next day2 heq2 =>
            have hm := Option.some.inj h
            subst hm
            by_cases hd : date = d
            · subst hd
              rw [alookup_aupdate_self]
              have hrb : retainedBy it date = true := by
                simp [retainedBy, hkey, hhour, hf']
              rw [hrb, if_pos rfl]
              rcases hlk : alookup m date with _ | day <;> rw [hlk] at heq1
              · -- accumulator created from this sample
                rcases hw0 : it.weather.get? 0 with _ | w0 <;> rw [hw0] at heq1
                · exact Option.noConfusion heq1
                have hd0 : day0 = ⟨-1000, 1000, w0, 0, it.humidity⟩ :=
                  (Option.some.inj heq1).symm
                have hwI : it.weather.headI = w0 := headI_of_get_zero _ _ hw0
                by_cases hn : goContains it.dateText "12:00:00" = true
                · rw [if_pos hn, hw0] at heq2
                  have hd2 : day2 = { updDay day0 it with description := w0, humidity := it.humidity } :=
                    (Option.some.inj heq2).symm
                  subst hd0
                  subst hd2
                  simp [applyItem, isNoon, hn, hwI]
                · rw [if_neg hn] at heq2
                  have hd2 := Option.some.inj heq2
                  subst hd0
                  rw [← hd2]
                  simp [applyItem, isNoon, hn, hwI]
              · -- accumulator already present
                have hd0 : day0 = day := (Option.some.inj heq1).symm
                subst hd0
                by_cases hn : goContains it.dateText "12:00:00" = true
                · rw [if_pos hn] at heq2
                  rcases hw0 : it.weather.get? 0 with _ | w0 <;> rw [hw0] at heq2
                  · exact Option.noConfusion heq2
                  have hwI : it.weather.headI = w0 := headI_of_get_zero _ _ hw0
                  have hd2 : day2 = { updDay day0 it with description := w0, humidity := it.humidity } :=
                    (Option.some.inj heq2).symm
                  subst hd2
                  simp [applyItem, isNoon, hn, hwI]
                · rw [if_neg hn] at heq2
                  have hd2 := Option.some.inj heq2
                  rw [← hd2]
                  simp [applyItem, isNoon, hn]
            · rw [alookup_aupdate_ne m date d _ hd]
              have hrb : retainedBy it d = false := by
                simp [retainedBy, hkey, hd]
              rw [hrb]
              simp
    next => exact Option.noConfusion h
  next a b hcatch => exact Option.noConfusion h

theorem dayList_cons (acc : Option DailyData) (it : FItem) (its : List FItem) :
    dayList acc (it :: its) = dayList (some (applyItem acc it)) its := rfl

theorem retainedFor_cons (it : FItem) (items : List FItem) (d : String) :
    retainedFor (it :: items) d =
      if retainedBy it d then it :: retainedFor items d else retainedFor items d := by
  simp [retainedFor, List.filter_cons]

theorem runItems_lookup : ∀ (items : List FItem) (m0 m' : List (String × DailyData)),
    runItems items m0 = some m' → ∀ d,
      alookup m' d = dayList (alookup m0 d) (retainedFor items d) := by
  intro items
  induction items with
  | nil =>
    intro m0 m' h d
    have hm := Option.some.inj h
    subst hm
    rfl
  | cons it rest ih =>
    intro m0 m' h d
    unfold runItems at h
    rcases hs : stepItem m0 it with _ | m1 <;> rw [hs] at h
    · exact Option.noConfusion h
    have hrec := ih m1 m' h d
    rw [retainedFor_cons]
    by_cases hr : retainedBy it d
    · rw [if_pos hr, dayList_cons, hrec, stepItem_lookup m0 it m1 hs d, if_pos hr]
    · rw [if_neg hr, hrec, stepItem_lookup m0 it m1 hs d, if_neg hr]

theorem stepItem_shape (m : List (String × DailyData)) (it : FItem)
    (m' : List (String × DailyData)) (h : stepItem m it = some m') :
    m' = m ∨ ∃ k v, m' = aupdate m k v := by
  unfold stepItem at h
  split at h
  next date timeStr hk ht =>
    split at h
    next hour hh =>
      by_cases hf : charsLt hour.data "06".data = true
      · rw [if_pos hf] at h
        exact Or.inl (Option.some.inj h).symm
      · rw [if_neg hf] at h
        split at h
        next => exact Option.noConfusion h
        next day0 heq1 =>
          split at h
          next => exact Option.noConfusion h
          next day2 heq2 =>
            exact Or.inr ⟨date, day2, (Option.some.inj h).symm⟩
    next => exact Option.noConfusion h
  next a b hc => exact Option.noConfusion h

theorem runItems_keys_nodup : ∀ (items : List FItem) (m0 m' : List (String × DailyData)),
    runItems items m0 = some m' → (m0.map Prod.fst).Nodup → (m'.map Prod.fst).Nodup := by
  intro items
  induction items with
  | nil =>
    intro m0 m' h hn
    have hm := Option.some.inj h
    subst hm
    exact hn
  | cons it rest ih =>
    intro m0 m' h hn
    unfold runItems at h
    rcases hs : stepItem m0 it with _ | m1 <;> rw [hs] at h
    · exact Option.noConfusion h
    refine ih m1 m' h ?_
    rcases stepItem_shape m0 it m1 hs with heq | ⟨k, v, heq⟩
    · subst heq
      exact hn
    · subst heq
      exact aupdate_keys_nodup m0 k v hn

theorem dayList_some_isSome : ∀ (its : List FItem) (day0 : DailyData),
    ∃ day, dayList (some day0) its = some day := by
  intro its
  induction its with
  | nil => exact fun day0 => ⟨day0, rfl⟩
  | cons it rest ih => exact fun day0 => ih (applyItem (some day0) it)

theorem dayList_none_iff (its : List FItem) : dayList none its = none ↔ its = [] := by
  cases its with
  | nil => simp [dayList]
  | cons it rest =>
    obtain ⟨day, hday⟩ := dayList_some_isSome rest (applyItem none it)
    rw [dayList_cons]
    simp [hday]

theorem applyItem_high_some (day0 : DailyData) (it : FItem) :
    (applyItem (some day0) it).high = goMax day0.high it.tempMax := by
  by_cases hn : isNoon it <;> simp [applyItem, updDay, goMax, hn]

theorem applyItem_high_none (it : FItem) :
    (applyItem none it).high = goMax (-1000) it.tempMax := by
  by_cases hn : isNoon it <;> simp [applyItem, updDay, goMax, hn]

theorem applyItem_low_some (day0 : DailyData) (it : FItem) :
    (applyItem (some day0) it).low = goMin day0.low it.tempMin := by
  by_cases hn : isNoon it <;> simp [applyItem, updDay, goMin, hn]

theorem applyItem_low_none (it : FItem) :
    (applyItem none it).low = goMin 1000 it.tempMin := by
  by_cases hn : isNoon it <;> simp [applyItem, updDay, goMin, hn]

theorem applyItem_desc_some (day0 : DailyData) (it : FItem) :
    (applyItem (some day0) it).description =
      (if isNoon it then it.weather.headI else day0.description) ∧
    (applyItem (some day0) it).humidity =
      (if isNoon it then it.humidity else day0.humidity) := by
  by_cases hn : isNoon it <;> simp [applyItem, updDay, hn]

theorem applyItem_desc_none (it : FItem) :
    (applyItem none it).description = it.weather.headI ∧
      (applyItem none it).humidity = it.humidity := by
  by_cases hn : isNoon it <;> simp [applyItem, updDay, hn]

theorem dayList_high : ∀ (its : List FItem) (day0 day : DailyData),
    dayList (some day0) its = some day →
    day.high = (its.map (fun x => x.tempMax)).foldl goMax day0.high := by
  intro its
  induction its with
  | nil =>
    intro day0 day h
    rw [← Option.some.inj h]
    rfl
  | cons it rest ih =>
    intro day0 day h
    have h' : dayList (some (applyItem (some day0) it)) rest = some day := h
    rw [ih (applyItem (some day0) it) day h', applyItem_high_some]
    rfl

theorem dayList_low : ∀ (its : List FItem) (day0 day : DailyData),
    dayList (some day0) its = some day →
    day.low = (its.map (fun x => x.tempMin)).foldl goMin day0.low := by
  intro its
  induction its with
  | nil =>
    intro day0 day h
    rw [← Option.some.inj h]
    rfl
  | cons it rest ih =>
    intro day0 day h
    have h' : dayList (some (applyItem (some day0) it)) rest = some day := h
    rw [ih (applyItem (some day0) it) day h', applyItem_low_some]
    rfl

theorem dayList_high_none (it : FItem) (its : List FItem) (day : DailyData)
    (h : dayList none (it :: its) = some day) :
    day.high = ((it :: its).map (fun x => x.tempMax)).foldl goMax (-1000) := by
  have h' : dayList (some (applyItem none it)) its = some day := h
  rw [dayList_high its _ day h', applyItem_high_none]
  rfl

theorem dayList_low_none (it : FItem) (its : List FItem) (day : DailyData)
    (h : dayList none (it :: its) = some day) :
    day.low = ((it :: its).map (fun x => x.tempMin)).foldl goMin 1000 := by
  have h' : dayList (some (applyItem none it)) its = some day := h
  rw [dayList_low its _ day h', applyItem_low_none]
  rfl

theorem goMax_le_left (a x : Rat) : a ≤ goMax a x := by
  unfold goMax
  split
  · exact le_of_lt (by assumption)
  · exact le_refl a

theorem goMax_le_right (a x : Rat) : x ≤ goMax a x := by
  unfold goMax
  split
  · exact le_refl x
  · exact le_of_not_lt (by assumption)

theorem goMax_cases (a x : Rat) : goMax a x = a ∨ goMax a x = x := by
  unfold goMax
  split
  · exact Or.inr rfl
  · exact Or.inl rfl

theorem foldl_goMax_bounds : ∀ (l : List Rat) (a : Rat),
    a ≤ l.foldl goMax a ∧ ∀ x ∈ l, x ≤ l.foldl goMax a := by
  intro l
  induction l with
  | nil => exact fun a => ⟨le_refl a, by simp⟩
  | cons x rest ih =>
    intro a
    obtain ⟨h1, h2⟩ := ih (goMax a x)
    refine ⟨le_trans (goMax_le_left a x) h1, ?_⟩
    intro y hy
    rcases List.mem_cons.mp hy with rfl | hy'
    · exact le_trans (goMax_le_right a y) h1
    · exact h2 y hy'

theorem foldl_goMax_mem : ∀ (l : List Rat) (a : Rat),
    l.foldl goMax a = a ∨ l.foldl goMax a ∈ l := by
  intro l
  induction l with
  | nil => exact fun a => Or.inl rfl
  | cons x rest ih =>
    intro a
    rcases ih (goMax a x) with h | h
    · rcases goMax_cases a x with hax | hax
      · exact Or.inl (by rw [List.foldl_cons, h, hax])
      · exact Or.inr (by rw [List.foldl_cons, h, hax]; exact List.mem_cons_self x rest)
    · exact Or.inr (List.mem_cons_of_mem x h)

theorem isMaxOf_foldl_goMax (l : List Rat) (a : Rat) (h : ∃ x ∈ l, a ≤ x) :
    isMaxOf (l.foldl goMax a) l := by
  obtain ⟨x, hx, hax⟩ := h
  obtain ⟨hle, hub⟩ := foldl_goMax_bounds l a
  refine ⟨?_, hub⟩
  rcases foldl_goMax_mem l a with heq | hmem
  · have hxa : x ≤ a := heq ▸ hub x hx
    have : x = a := le_antisymm hxa hax
    rw [heq, ← this]
    exact hx
  · exact hmem

theorem goMin_le_left (a x : Rat) : goMin a x ≤ a := by
  unfold goMin
  split
  · exact le_of_lt (by assumption)
  · exact le_refl a

theorem goMin_le_right (a x : Rat) : goMin a x ≤ x := by
  unfold goMin
  split
  · exact le_refl x
  · exact le_of_not_lt (by assumption)

theorem goMin_cases (a x : Rat) : goMin a x = a ∨ goMin a x = x := by
  unfold goMin
  split
  · exact Or.inr rfl
  · exact Or.inl rfl

theorem foldl_goMin_bounds : ∀ (l : List Rat) (a : Rat),
    l.foldl goMin a ≤ a ∧ ∀ x ∈ l, l.foldl goMin a ≤ x := by
  intro l
  induction l with
  | nil => exact fun a => ⟨le_refl a, by simp⟩
  | cons x rest ih =>
    intro a
    obtain ⟨h1, h2⟩ := ih (goMin a x)
    refine ⟨le_trans h1 (goMin_le_left a x), ?_⟩
    intro y hy
    rcases List.mem_cons.mp hy with rfl | hy'
    · exact le_trans h1 (goMin_le_right a y)
    · exact h2 y hy'

theorem foldl_goMin_mem : ∀ (l : List Rat) (a : Rat),
    l.foldl goMin a = a ∨ l.foldl goMin a ∈ l := by
  intro l
  induction l with
  | nil => exact fun a => Or.inl rfl
  | cons x rest ih =>
    intro a
    rcases ih (goMin a x) with h | h
    · rcases goMin_cases a x with hax | hax
      · exact Or.inl (by rw [List.foldl_cons, h, hax])
      · exact Or.inr (by rw [List.foldl_cons, h, hax]; exact List.mem_cons_self x rest)
    · exact Or.inr (List.mem_cons_of_mem x h)

theorem isMinOf_foldl_goMin (l : List Rat) (a : Rat) (h : ∃ x ∈ l, x ≤ a) :
    isMinOf (l.foldl goMin a) l := by
  obtain ⟨x, hx, hax⟩ := h
  obtain ⟨hle, hlb⟩ := foldl_goMin_bounds l a
  refine ⟨?_, hlb⟩
  rcases foldl_goMin_mem l a with heq | hmem
  · have hxa : x ≤ a := hax
    have hax2 : a ≤ x := heq ▸ hlb x hx
    have : x = a := le_antisymm hxa hax2
    rw [heq, ← this]
    exact hx
  · exact hmem

theorem dayList_desc : ∀ (its : List FItem) (day0 day : DailyData),
    dayList (some day0) its = some day →
    ((its.filter isNoon = []) →
      day.description = day0.description ∧ day.humidity = day0.humidity) ∧
    (∀ itl, (its.filter isNoon).getLast? = some itl →
      day.description = itl.weather.headI ∧ day.humidity = itl.humidity) := by
  intro its
  induction its with
  | nil =>
    intro day0 day h
    have hd := Option.some.inj h
    subst hd
    exact ⟨fun _ => ⟨rfl, rfl⟩, fun itl hitl => by simp at hitl⟩
  | cons it rest ih =>
    intro day0 day h
    have h' : dayList (some (applyItem (some day0) it)) rest = some day := h
    obtain ⟨ihe, ihl⟩ := ih (applyItem (some day0) it) day h'
    obtain ⟨hdesc, hhum⟩ := applyItem_desc_some day0 it
    by_cases hn : isNoon it = true
    · constructor
      · intro hc
        rw [List.filter_cons_of_pos hn] at hc
        exact absurd hc (List.cons_ne_nil it _)
      · intro itl hitl
        rw [List.filter_cons_of_pos hn] at hitl
        rcases hrest : rest.filter isNoon with _ | ⟨x, xs⟩
        · rw [hrest] at hitl
          have hil : it = itl := Option.some.inj hitl
          subst hil
          obtain ⟨e1, e2⟩ := ihe hrest
          rw [e1, e2, hdesc, hhum]
          simp [hn]
        · rw [hrest, List.getLast?_cons_cons] at hitl
          exact ihl itl (by rw [hrest]; exact hitl)
    · constructor
      · intro hc
        rw [List.filter_cons_of_neg hn] at hc
        obtain ⟨e1, e2⟩ := ihe hc
        rw [e1, e2, hdesc, hhum]
        simp [hn]
      · intro itl hitl
        rw [List.filter_cons_of_neg hn] at hitl
        exact ihl itl hitl

theorem dayList_desc_none (it : FItem) (its : List FItem) (day : DailyData)
    (h : dayList none (it :: its) = some day) :
    (((it :: its).filter isNoon = []) →
      day.description = it.weather.headI ∧ day.humidity = it.humidity) ∧
    (∀ itl, ((it :: its).filter isNoon).getLast? = some itl →
      day.description = itl.weather.headI ∧ day.humidity = itl.humidity) := by
  have h' : dayList (some (applyItem none it)) its = some day := h
  obtain ⟨ihe, ihl⟩ := dayList_desc its (applyItem none it) day h'
  obtain ⟨hdesc, hhum⟩ := applyItem_desc_none it
  by_cases hn : isNoon it = true
  · constructor
    · intro hc
      rw [List.filter_cons_of_pos hn] at hc
      exact absurd hc (List.cons_ne_nil it _)
    · intro itl hitl
      rw [List.filter_cons_of_pos hn] at hitl
      rcases hrest : its.filter isNoon with _ | ⟨x, xs⟩
      · rw [hrest] at hitl
        have hil : it = itl := Option.some.inj hitl
        subst hil
        obtain ⟨e1, e2⟩ := ihe hrest
        exact ⟨e1.trans hdesc, e2.trans hhum⟩
      · rw [hrest, List.getLast?_cons_cons] at hitl
        exact ihl itl (by rw [hrest]; exact hitl)
  · constructor
    · intro hc
      rw [List.filter_cons_of_neg hn] at hc
      obtain ⟨e1, e2⟩ := ihe hc
      exact ⟨e1.trans hdesc, e2.trans hhum⟩
    · intro itl hitl
      rw [List.filter_cons_of_neg hn] at hitl
      exact ihl itl hitl

theorem buildOut_mem : ∀ (ds : List String) (m : List (String × DailyData))
    (out : List DailyForecast), buildOut m ds = some out →
    ∀ e ∈ out, ∃ d day, d ∈ ds ∧ alookup m d = some day ∧ e = mkDF d day := by
  intro ds
  induction ds with
  | nil =>
    intro m out h e he
    rw [← Option.some.inj h] at he
    simp at he
  | cons d rest ih =>
    intro m out h e he
    unfold buildOut at h
    rcases hlk : alookup m d with _ | day <;> rw [hlk] at h
    · exact Option.noConfusion h
    rcases hb : buildOut m rest with _ | out' <;> rw [hb] at h
    · exact Option.noConfusion h
    have hout := Option.some.inj h
    subst hout
    rcases List.mem_cons.mp he with rfl | he'
    · exact ⟨d, day, List.mem_cons_self d rest, hlk, rfl⟩
    · obtain ⟨d', day', hd', hlk', he''⟩ := ih m out' hb e he'
      exact ⟨d', day', List.mem_cons_of_mem d hd', hlk', he''⟩

theorem buildOut_dates : ∀ (ds : List String) (m : List (String × DailyData))
    (out : List DailyForecast), buildOut m ds = some out →
    out.map (fun e => e.date) = ds.map goDateOf := by
  intro ds
  induction ds with
  | nil =>
    intro m out h
    rw [← Option.some.inj h]
    rfl
  | cons d rest ih =>
    intro m out h
    unfold buildOut at h
    rcases hlk : alookup m d with _ | day <;> rw [hlk] at h
    · exact Option.noConfusion h
    rcases hb : buildOut m rest with _ | out' <;> rw [hb] at h
    · exact Option.noConfusion h
    rw [← Option.some.inj h]
    simp [ih m out' hb, mkDF]

theorem processForecastData_split (items : List FItem) (out : List DailyForecast)
    (h : processForecastData items = some out) :
    ∃ m, runItems items [] = some m ∧ (m.map Prod.fst).Nodup ∧
      buildOut m (sortKeys (m.map Prod.fst)) = some out := by
  unfold processForecastData at h
  rcases hr : runItems items [] with _ | m <;> rw [hr] at h
  · exact Option.noConfusion h
  exact ⟨m, rfl, runItems_keys_nodup items [] m hr (by simp), h⟩

theorem processForecastData_entry (items : List FItem) (out : List DailyForecast)
    (h : processForecastData items = some out) :
    ∀ e ∈ out, ∃ d day, dayList none (retainedFor items d) = some day ∧ e = mkDF d day := by
  obtain ⟨m, hr, hnd, hb⟩ := processForecastData_split items out h
  intro e he
  obtain ⟨d, day, hds, hlk, he'⟩ := buildOut_mem _ m out hb e he
  have hlook := runItems_lookup items [] m hr d
  exact ⟨d, day, hlook.symm.trans hlk, he'⟩

theorem retainedBy_hour (it : FItem) (d : String) (h : retainedBy it d = true) :
    keyOf it = some d ∧
      ∃ hr, hourOf it = some hr ∧ charsLt hr.data "06".data = false := by
  unfold retainedBy at h
  rcases hho : hourOf it with _ | hr <;> rw [hho] at h
  · simp at h
  · simp only [Bool.and_eq_true, beq_iff_eq, Bool.not_eq_true'] at h
    exact ⟨h.1, hr, rfl, h.2⟩

/-! ## Claim theorems: openweather daily aggregation -/

/-- C1 fails as stated: the accumulator starts at the sentinel high `-1000`
(low `1000`) and is only moved by a strict comparison, so a day whose every
retained sample has `TempMax` below `-1000` reports high `-1000`, which is
not the maximum of `TempMax` over the retained samples (dually for low). -/
theorem c1_sentinel_counterexample :
    processForecastData
        [⟨"2024-03-01 09:00:00", 50, 2000, -2000, 50, 50, 0, ["w"]⟩] =
      some [⟨(2024, 3, 1), "w", -1000, 1000, 0, 50⟩] ∧
    retainedFor [⟨"2024-03-01 09:00:00", 50, 2000, -2000, 50, 50, 0, ["w"]⟩] "2024-03-01" =
      [⟨"2024-03-01 09:00:00", 50, 2000, -2000, 50, 50, 0, ["w"]⟩] ∧
    ¬ isMaxOf (-1000 : Rat)
        (([⟨"2024-03-01 09:00:00", 50, 2000, -2000, 50, 50, 0, ["w"]⟩] :
            List FItem).map (fun x => x.tempMax)) ∧
    ¬ isMinOf (1000 : Rat)
        (([⟨"2024-03-01 09:00:00", 50, 2000, -2000, 50, 50, 0, ["w"]⟩] :
            List FItem).map (fun x => x.tempMin)) := by
  decide

/-- C1 (amended): every output day of `processForecastData` is built from the
retained samples of one date key, all of which have hour-of-day at least
"06"; its High is the maximum of `TempMax` over those samples provided some
retained `TempMax` reaches the `-1000` sentinel, and its Low is the minimum
of `TempMin` provided some retained `TempMin` reaches the `1000` sentinel. -/
theorem c1_aggregation (items : List FItem) (out : List DailyForecast)
    (h : processForecastData items = some out) :
    ∀ e ∈ out, ∃ d : String,
      retainedFor items d ≠ [] ∧
      e.date = goDateOf d ∧
      (∀ it ∈ retainedFor items d,
        ∃ hr, hourOf it = some hr ∧ charsLt hr.data "06".data = false) ∧
      ((∃ it ∈ retainedFor items d, (-1000 : Rat) ≤ it.tempMax) →
        isMaxOf e.high ((retainedFor items d).map (fun x => x.tempMax))) ∧
      ((∃ it ∈ retainedFor items d, it.tempMin ≤ (1000 : Rat)) →
        isMinOf e.low ((retainedFor items d).map (fun x => x.tempMin))) := by
  intro e he
  obtain ⟨d, day, hday, he'⟩ := processForecastData_entry items out h e he
  subst he'
  have hne : retainedFor items d ≠ [] := by
    intro hc
    rw [hc] at hday
    exact Option.noConfusion hday
  refine ⟨d, hne, rfl, ?_, ?_, ?_⟩
  · intro it hit
    have hrb : retainedBy it d = true := (List.mem_filter.mp hit).2
    exact (retainedBy_hour it d hrb).2
  · rintro ⟨it, hit, hle⟩
    rcases hrf : retainedFor items d with _ | ⟨r0, rs⟩
    · exact absurd hrf hne
    have hday' : dayList none (r0 :: rs) = some day := by
      rw [← hrf]
      exact hday
    have hhigh := dayList_high_none r0 rs day hday'
    show isMaxOf day.high _
    rw [hhigh]
    apply isMaxOf_foldl_goMax
    refine ⟨it.tempMax, ?_, hle⟩
    exact List.mem_map_of_mem _ (hrf ▸ hit)
  · rintro ⟨it, hit, hle⟩
    rcases hrf : retainedFor items d with _ | ⟨r0, rs⟩
    · exact absurd hrf hne
    have hday' : dayList none (r0 :: rs) = some day := by
      rw [← hrf]
      exact hday
    have hlow := dayList_low_none r0 rs day hday'
    show isMinOf day.low _
    rw [hlow]
    apply isMinOf_foldl_goMin
    refine ⟨it.tempMin, ?_, hle⟩
    exact List.mem_map_of_mem _ (hrf ▸ hit)

theorem c1_aggregation_witness :
    processForecastData
        [⟨"2024-03-01 09:00:00", 50, 40, 60, 50, 55, 3, ["cloudy"]⟩] =
      some [⟨(2024, 3, 1), "cloudy", 60, 40, 3, 55⟩] ∧
    (∀ e ∈ [(⟨(2024, 3, 1), "cloudy", 60, 40, 3, 55⟩ : DailyForecast)], ∃ d : String,
      retainedFor [⟨"2024-03-01 09:00:00", 50, 40, 60, 50, 55, 3, ["cloudy"]⟩] d ≠ [] ∧
      e.date = goDateOf d ∧
      (∀ it ∈ retainedFor [⟨"2024-03-01 09:00:00", 50, 40, 60, 50, 55, 3, ["cloudy"]⟩] d,
        ∃ hr, hourOf it = some hr ∧ charsLt hr.data "06".data = false) ∧
      ((∃ it ∈ retainedFor [⟨"2024-03-01 09:00:00", 50, 40, 60, 50, 55, 3, ["cloudy"]⟩] d,
          (-1000 : Rat) ≤ it.tempMax) →
        isMaxOf e.high
          ((retainedFor [⟨"2024-03-01 09:00:00", 50, 40, 60, 50, 55, 3, ["cloudy"]⟩] d).map
            (fun x => x.tempMax))) ∧
      ((∃ it ∈ retainedFor [⟨"2024-03-01 09:00:00", 50, 40, 60, 50, 55, 3, ["cloudy"]⟩] d,
          it.tempMin ≤ (1000 : Rat)) →
        isMinOf e.low
          ((retainedFor [⟨"2024-03-01 09:00:00", 50, 40, 60, 50, 55, 3, ["cloudy"]⟩] d).map
            (fun x => x.tempMin)))) :=
  ⟨by decide, c1_aggregation _ _ (by decide)⟩

/-- C3: for each output day, if any retained sample's date-time text contains
"12:00:00" then the day's conditions and humidity are those of the last such
sample (in particular of some noon sample), overriding the defaults;
a day with no noon sample keeps the first retained sample's description and
humidity. -/
theorem c3_noon_override (items : List FItem) (out : List DailyForecast)
    (h : processForecastData items = some out) :
    ∀ e ∈ out, ∃ d : String,
      retainedFor items d ≠ [] ∧
      e.date = goDateOf d ∧
      (noonsFor items d = [] →
        ∃ it0, (retainedFor items d).head? = some it0 ∧
          e.conditions = it0.weather.headI ∧ e.humidity = it0.humidity) ∧
      (∀ itl, (noonsFor items d).getLast? = some itl →
        isNoon itl = true ∧ e.conditions = itl.weather.headI ∧ e.humidity = itl.humidity) ∧
      (noonsFor items d ≠ [] →
        ∃ itl, (noonsFor items d).getLast? = some itl ∧
          e.conditions = itl.weather.headI ∧ e.humidity = itl.humidity) := by
  intro e he
  obtain ⟨d, day, hday, he'⟩ := processForecastData_entry items out h e he
  subst he'
  have hne : retainedFor items d ≠ [] := by
    intro hc
    rw [hc] at hday
    exact Option.noConfusion hday
  rcases hrf : retainedFor items d with _ | ⟨r0, rs⟩
  · exact absurd hrf hne
  have hday' : dayList none (r0 :: rs) = some day := by
    rw [← hrf]
    exact hday
  obtain ⟨hemp, hlast⟩ := dayList_desc_none r0 rs day hday'
  have hnoons : noonsFor items d = (r0 :: rs).filter isNoon := by
    unfold noonsFor
    rw [hrf]
  refine ⟨d, hne, rfl, ?_, ?_, ?_⟩
  · intro hc
    rw [hnoons] at hc
    obtain ⟨e1, e2⟩ := hemp hc
    exact ⟨r0, by rw [hrf]; rfl, e1, e2⟩
  · intro itl hitl
    rw [hnoons] at hitl
    obtain ⟨e1, e2⟩ := hlast itl hitl
    have hmem : itl ∈ (r0 :: rs).filter isNoon := by
      obtain ⟨hne2, heq⟩ := List.mem_getLast?_eq_getLast (by rw [hitl]; rfl)
      rw [heq]
      exact List.getLast_mem hne2
    exact ⟨(List.mem_filter.mp hmem).2, e1, e2⟩
  · intro hc
    rw [hnoons] at hc
    obtain ⟨itl, hitl⟩ :
        ∃ x, ((r0 :: rs).filter isNoon).getLast? = some x :=
      ⟨_, List.getLast?_eq_getLast_of_ne_nil hc⟩
    obtain ⟨e1, e2⟩ := hlast itl hitl
    exact ⟨itl, by rw [hnoons]; exact hitl, e1, e2⟩

theorem c3_noon_override_witness :
    processForecastData
        [⟨"2024-03-01 09:00:00", 50, 40, 60, 50, 40, 3, ["morning"]⟩,
         ⟨"2024-03-01 12:00:00", 55, 45, 65, 55, 70, 4, ["noon"]⟩] =
      some [⟨(2024, 3, 1), "noon", 65, 40, 4, 70⟩] ∧
    (∀ e ∈ [(⟨(2024, 3, 1), "noon", 65, 40, 4, 70⟩ : DailyForecast)], ∃ d : String,
      retainedFor
          [⟨"2024-03-01 09:00:00", 50, 40, 60, 50, 40, 3, ["morning"]⟩,
           ⟨"2024-03-01 12:00:00", 55, 45, 65, 55, 70, 4, ["noon"]⟩] d ≠ [] ∧
      e.date = goDateOf d ∧
      (noonsFor
          [⟨"2024-03-01 09:00:00", 50, 40, 60, 50, 40, 3, ["morning"]⟩,
           ⟨"2024-03-01 12:00:00", 55, 45, 65, 55, 70, 4, ["noon"]⟩] d = [] →
        ∃ it0,
          (retainedFor
              [⟨"2024-03-01 09:00:00", 50, 40, 60, 50, 40, 3, ["morning"]⟩,
               ⟨"2024-03-01 12:00:00", 55, 45, 65, 55, 70, 4, ["noon"]⟩] d).head? =
              some it0 ∧
          e.conditions = it0.weather.headI ∧ e.humidity = it0.humidity) ∧
      (∀ itl,
        (noonsFor
            [⟨"2024-03-01 09:00:00", 50, 40, 60, 50, 40, 3, ["morning"]⟩,
             ⟨"2024-03-01 12:00:00", 55, 45, 65, 55, 70, 4, ["noon"]⟩] d).getLast? =
            some itl →
        isNoon itl = true ∧ e.conditions = itl.weather.headI ∧ e.humidity = itl.humidity) ∧
      (noonsFor
          [⟨"2024-03-01 09:00:00", 50, 40, 60, 50, 40, 3, ["morning"]⟩,
           ⟨"2024-03-01 12:00:00", 55, 45, 65, 55, 70, 4, ["noon"]⟩] d ≠ [] →
        ∃ itl,
          (noonsFor
              [⟨"2024-03-01 09:00:00", 50, 40, 60, 50, 40, 3, ["morning"]⟩,
               ⟨"2024-03-01 12:00:00", 55, 45, 65, 55, 70, 4, ["noon"]⟩] d).getLast? =
              some itl ∧
          e.conditions = itl.weather.headI ∧ e.humidity = itl.humidity)) :=
  ⟨by decide, c3_noon_override _ _ (by decide)⟩

/-! ## Order properties of the bytewise comparison -/

theorem charNat_inj (a b : Char) (h : a.toNat = b.toNat) : a = b :=
  Char.ext (UInt32.ext h)

theorem charsLt_cons_self (x : Char) (as bs : List Char) :
    charsLt (x :: as) (x :: bs) = charsLt as bs := by
  simp [charsLt]

theorem charsLt_cons_ne (x y : Char) (as bs : List Char) (h : ¬ x = y) :
    charsLt (x :: as) (y :: bs) = decide (x.toNat < y.toNat) := by
  simp [charsLt, h]

theorem charsLt_asymm : ∀ (a b : List Char), charsLt a b = true → charsLt b a = false := by
  intro a
  induction a with
  | nil =>
    intro b h
    cases b with
    | nil => simp [charsLt] at h
    | cons y ys => rfl
  | cons x xs ih =>
    intro b h
    cases b with
    | nil => simp [charsLt] at h
    | cons y ys =>
      by_cases hxy : x = y
      · subst hxy
        rw [charsLt_cons_self] at h ⊢
        exact ih ys h
      · have hyx : ¬ y = x := fun e => hxy e.symm
        rw [charsLt_cons_ne x y xs ys hxy] at h
        rw [charsLt_cons_ne y x ys xs hyx]
        have := of_decide_eq_true h
        simp only [decide_eq_false_iff_not]
        omega

theorem charsLt_trans : ∀ (a b c : List Char),
    charsLt a b = true → charsLt b c = true → charsLt a c = true := by
  intro a
  induction a with
  | nil =>
    intro b c hab hbc
    cases b with
    | nil => simp [charsLt] at hab
    | cons y ys =>
      cases c with
      | nil => simp [charsLt] at hbc
      | cons z zs => rfl
  | cons x xs ih =>
    intro b c hab hbc
    cases b with
    | nil => simp [charsLt] at hab
    | cons y ys =>
      cases c with
      | nil => simp [charsLt] at hbc
      | cons z zs =>
        by_cases hxy : x = y <;> by_cases hyz : y = z
        · subst hxy
          subst hyz
          rw [charsLt_cons_self] at hab hbc ⊢
          exact ih ys zs hab hbc
        · subst hxy
          rw [charsLt_cons_ne x z ys zs hyz] at hbc
          rw [charsLt_cons_ne x z xs zs hyz]
          exact hbc
        · subst hyz
          rw [charsLt_cons_ne x y xs ys hxy] at hab
          rw [charsLt_cons_ne x y xs zs hxy]
          exact hab
        · rw [charsLt_cons_ne x y xs ys hxy] at hab
          rw [charsLt_cons_ne y z ys zs hyz] at hbc
          have h1 := of_decide_eq_true hab
          have h2 := of_decide_eq_true hbc
          by_cases hxz : x = z
          · have := congrArg Char.toNat hxz
            exfalso
            omega
          · rw [charsLt_cons_ne x z xs zs hxz]
            simp only [decide_eq_true_eq]
            omega

theorem charsLt_conn : ∀ (a b : List Char),
    charsLt a b = false → charsLt b a = false → a = b := by
  intro a
  induction a with
  | nil =>
    intro b hab hba
    cases b with
    | nil => rfl
    | cons y ys => simp [charsLt] at hab
  | cons x xs ih =>
    intro b hab hba
    cases b with
    | nil => simp [charsLt] at hba
    | cons y ys =>
      by_cases hxy : x = y
      · subst hxy
        rw [charsLt_cons_self] at hab hba
        rw [ih ys hab hba]
      · have hyx : ¬ y = x := fun e => hxy e.symm
        rw [charsLt_cons_ne x y xs ys hxy] at hab
        rw [charsLt_cons_ne y x ys xs hyx] at hba
        simp only [decide_eq_false_iff_not] at hab hba
        exact absurd (charNat_inj x y (by omega)) hxy

theorem strData_inj (a b : String) (h : a.data = b.data) : a = b := by
  cases a
  cases b
  exact congrArg String.mk h

/-! ## The key sort -/

theorem insertKey_perm (a : String) : ∀ l : List String, List.Perm (insertKey a l) (a :: l) := by
  intro l
  induction l with
  | nil => exact List.Perm.refl [a]
  | cons b rest ih =>
    unfold insertKey
    split
    · exact List.Perm.refl _
    · exact (ih.cons b).trans (List.Perm.swap a b rest)

theorem sortKeys_perm : ∀ l : List String, List.Perm (sortKeys l) l := by
  intro l
  induction l with
  | nil => exact List.Perm.refl []
  | cons a rest ih => exact (insertKey_perm a (sortKeys rest)).trans (ih.cons a)

theorem insertKey_sorted (a : String) : ∀ l : List String,
    l.Pairwise (fun x y => charsLt y.data x.data = false) →
    (insertKey a l).Pairwise (fun x y => charsLt y.data x.data = false) := by
  intro l
  induction l with
  | nil =>
    intro _
    simp [insertKey]
  | cons b rest ih =>
    intro h
    obtain ⟨hb, hrest⟩ := List.pairwise_cons.mp h
    unfold insertKey
    by_cases hab : charsLt a.data b.data = true
    · rw [if_pos hab]
      refine List.Pairwise.cons ?_ h
      intro z hz
      rcases List.mem_cons.mp hz with rfl | hz'
      · exact charsLt_asymm _ _ hab
      · rcases hza : charsLt z.data a.data with _ | _
        · rfl
        · have hzb := charsLt_trans _ _ _ hza hab
          rw [hb z hz'] at hzb
          exact Bool.noConfusion hzb
    · rw [if_neg hab]
      refine List.Pairwise.cons ?_ (ih hrest)
      intro z hz
      have hz2 : z = a ∨ z ∈ rest :=
        List.mem_cons.mp ((insertKey_perm a rest).mem_iff.mp hz)
      rcases hz2 with rfl | hz'
      · exact Bool.eq_false_iff.mpr hab
      · exact hb z hz'

theorem sortKeys_sorted : ∀ l : List String,
    (sortKeys l).Pairwise (fun x y => charsLt y.data x.data = false) := by
  intro l
  induction l with
  | nil => simp [sortKeys]
  | cons a rest ih => exact insertKey_sorted a (sortKeys rest) ih

theorem sortKeys_strict (l : List String) (h : l.Nodup) :
    (sortKeys l).Pairwise (fun x y => charsLt x.data y.data = true) := by
  have h1 := sortKeys_sorted l
  have h2 : (sortKeys l).Nodup := ((sortKeys_perm l).nodup_iff).mpr h
  refine (h1.and h2).imp ?_
  rintro x y ⟨hle, hne⟩
  rcases hxy : charsLt x.data y.data with _ | _
  · exact absurd (strData_inj x y (charsLt_conn _ _ hxy hle)) hne
  · rfl

theorem isDig_bounds (c : Char) (h : isDig c = true) : 48 ≤ c.toNat ∧ c.toNat ≤ 57 := by
  simpa [isDig, Bool.and_eq_true, decide_eq_true_eq] using h

theorem dateInRange_inj (y m d : Nat) (t : Nat × Nat × Nat) (h : dateInRange y m d = some t) :
    t = (y, m, d) := by
  unfold dateInRange at h
  split at h
  · exact (Option.some.inj h).symm
  · exact Option.noConfusion h

theorem parseDateChars_mono : ∀ (l1 l2 : List Char) (a b : Nat × Nat × Nat),
    parseDateChars l1 = some a → parseDateChars l2 = some b →
    charsLt l1 l2 = true → dateLt a b := by
  intro l1 l2 a b h1 h2 hlt
  unfold parseDateChars at h1 h2
  split at h1
  next y1 y2 y3 y4 c1 m1 m2 c2 d1 d2 =>
    split at h1
    next hdig1 =>
      split at h2
      next z1 z2 z3 z4 e1 n1 n2 e2 f1 f2 =>
        split at h2
        next hdig2 =>
          have ha := dateInRange_inj _ _ _ a h1
          have hb := dateInRange_inj _ _ _ b h2
          subst ha
          subst hb
          simp only [dateLt]
          simp only [Bool.and_eq_true, decide_eq_true_eq] at hdig1 hdig2
          obtain ⟨⟨⟨⟨⟨⟨⟨⟨⟨hy1, hy2⟩, hy3⟩, hy4⟩, hc1⟩, hm1⟩, hm2⟩, hc2⟩, hd1⟩, hd2⟩ := hdig1
          obtain ⟨⟨⟨⟨⟨⟨⟨⟨⟨hz1, hz2⟩, hz3⟩, hz4⟩, he1⟩, hn1⟩, hn2⟩, he2⟩, hf1⟩, hf2⟩ := hdig2
          subst hc1
          subst hc2
          subst he1
          subst he2
          obtain ⟨q1, q1'⟩ := isDig_bounds y1 hy1
          obtain ⟨q2, q2'⟩ := isDig_bounds y2 hy2
          obtain ⟨q3, q3'⟩ := isDig_bounds y3 hy3
          obtain ⟨q4, q4'⟩ := isDig_bounds y4 hy4
          obtain ⟨q5, q5'⟩ := isDig_bounds m1 hm1
          obtain ⟨q6, q6'⟩ := isDig_bounds m2 hm2
          obtain ⟨q7, q7'⟩ := isDig_bounds d1 hd1
          obtain ⟨q8, q8'⟩ := isDig_bounds d2 hd2
          obtain ⟨r1, r1'⟩ := isDig_bounds z1 hz1
          obtain ⟨r2, r2'⟩ := isDig_bounds z2 hz2
          obtain ⟨r3, r3'⟩ := isDig_bounds z3 hz3
          obtain ⟨r4, r4'⟩ := isDig_bounds z4 hz4
          obtain ⟨r5, r5'⟩ := isDig_bounds n1 hn1
          obtain ⟨r6, r6'⟩ := isDig_bounds n2 hn2
          obtain ⟨r7, r7'⟩ := isDig_bounds f1 hf1
          obtain ⟨r8, r8'⟩ := isDig_bounds f2 hf2
          by_cases p1 : y1 = z1
          case neg =>
            rw [charsLt_cons_ne _ _ _ _ p1] at hlt
            have hp := of_decide_eq_true hlt
            exact Or.inl (by omega)
          subst p1
          rw [charsLt_cons_self] at hlt
          by_cases p2 : y2 = z2
          case neg =>
            rw [charsLt_cons_ne _ _ _ _ p2] at hlt
            have hp := of_decide_eq_true hlt
            exact Or.inl (by omega)
          subst p2
          rw [charsLt_cons_self] at hlt
          by_cases p3 : y3 = z3
          case neg =>
            rw [charsLt_cons_ne _ _ _ _ p3] at hlt
            have hp := of_decide_eq_true hlt
            exact Or.inl (by omega)
          subst p3
          rw [charsLt_cons_self] at hlt
          by_cases p4 : y4 = z4
          case neg =>
            rw [charsLt_cons_ne _ _ _ _ p4] at hlt
            have hp := of_decide_eq_true hlt
            exact Or.inl (by omega)
          subst p4
          rw [charsLt_cons_self, charsLt_cons_self] at hlt
          by_cases p5 : m1 = n1
          case neg =>
            rw [charsLt_cons_ne _ _ _ _ p5] at hlt
            have hp := of_decide_eq_true hlt
            exact Or.inr ⟨rfl, Or.inl (by omega)⟩
          subst p5
          rw [charsLt_cons_self] at hlt
          by_cases p6 : m2 = n2
          case neg =>
            rw [charsLt_cons_ne _ _ _ _ p6] at hlt
            have hp := of_decide_eq_true hlt
            exact Or.inr ⟨rfl, Or.inl (by omega)⟩
          subst p6
          rw [charsLt_cons_self, charsLt_cons_self] at hlt
          by_cases p7 : d1 = f1
          case neg =>
            rw [charsLt_cons_ne _ _ _ _ p7] at hlt
            have hp := of_decide_eq_true hlt
            exact Or.inr ⟨rfl, Or.inr ⟨rfl, by omega⟩⟩
          subst p7
          rw [charsLt_cons_self] at hlt
          by_cases p8 : d2 = f2
          case neg =>
            rw [charsLt_cons_ne _ _ _ _ p8] at hlt
            have hp := of_decide_eq_true hlt
            exact Or.inr ⟨rfl, Or.inr ⟨rfl, by omega⟩⟩
          subst p8
          rw [charsLt_cons_self] at hlt
          simp [charsLt] at hlt
        next => exact Option.noConfusion h2
      next => exact Option.noConfusion h2
    next => exact Option.noConfusion h1
  next => exact Option.noConfusion h1

/-! ## Claim theorems: output ordering -/

/-- C4 fails as stated: `time.Parse` errors are ignored, so two retained
samples with distinct unparseable date keys produce two output entries that
both carry Go's zero time as their date — duplicate dates in the output. -/
theorem c4_duplicate_dates_counterexample :
    processForecastData
        [⟨"bad1 07:00:00", 50, 40, 60, 50, 50, 0, ["w"]⟩,
         ⟨"bad2 07:00:00", 51, 41, 61, 51, 51, 0, ["w"]⟩] =
      some [⟨(1, 1, 1), "w", 60, 40, 0, 50⟩, ⟨(1, 1, 1), "w", 61, 41, 0, 51⟩] ∧
    ¬ List.Pairwise (fun e1 e2 => dateLt e1.date e2.date)
        [(⟨(1, 1, 1), "w", 60, 40, 0, 50⟩ : DailyForecast),
         ⟨(1, 1, 1), "w", 61, 41, 0, 51⟩] ∧
    ¬ List.Pairwise (fun e1 e2 => e1.date ≠ e2.date)
        [(⟨(1, 1, 1), "w", 60, 40, 0, 50⟩ : DailyForecast),
         ⟨(1, 1, 1), "w", 61, 41, 0, 51⟩] := by
  refine ⟨by decide, ?_, ?_⟩ <;> · intro hc
                                   have := List.rel_of_pairwise_cons hc (List.mem_cons_self _ _)
                                   simp [dateLt] at this

/-- C4 (amended): whenever every retained sample's date key parses under the
Go layout "2006-01-02", the output of `processForecastData` is strictly
ascending by date — in particular it contains no two entries with the same
date.  (Without that proviso, ignored `time.Parse` errors map distinct
malformed keys to the same zero date.) -/
theorem c4_sorted_dates (items : List FItem) (out : List DailyForecast)
    (h : processForecastData items = some out)
    (hp : items.all keyParses = true) :
    out.Pairwise (fun e1 e2 => dateLt e1.date e2.date) := by
  obtain ⟨m, hr, hnd, hb⟩ := processForecastData_split items out h
  have hkeys : ∀ d ∈ m.map Prod.fst, (parseDateChars d.data).isSome = true := by
    intro d hd
    have hlk : ∃ day, alookup m d = some day := by
      rcases hl : alookup m d with _ | day
      · exact absurd ((alookup_none_iff m d).mp hl) (by simpa using hd)
      · exact ⟨day, rfl⟩
    obtain ⟨day, hday⟩ := hlk
    have hlook := runItems_lookup items [] m hr d
    have hdl : dayList none (retainedFor items d) = some day := hlook.symm.trans hday
    have hne : retainedFor items d ≠ [] := by
      intro hc
      rw [hc] at hdl
      exact Option.noConfusion hdl
    rcases hrf : retainedFor items d with _ | ⟨r0, rs⟩
    · exact absurd hrf hne
    have hr0 : r0 ∈ retainedFor items d := by
      rw [hrf]
      exact List.mem_cons_self r0 rs
    have hmem : r0 ∈ items := (List.mem_filter.mp hr0).1
    have hrb : retainedBy r0 d = true := (List.mem_filter.mp hr0).2
    obtain ⟨hkey, hr', hhour', hflt⟩ := retainedBy_hour r0 d hrb
    have hkp : keyParses r0 = true := (List.all_eq_true.mp hp) r0 hmem
    unfold keyParses at hkp
    rw [hhour'] at hkp
    have hkp2 : (if charsLt hr'.data "06".data = true then true
        else match keyOf r0 with
             | none => true
             | some k => (parseDateChars k.data).isSome) = true := hkp
    rw [if_neg (by simp [hflt]), hkey] at hkp2
    exact hkp2
  have hdates := buildOut_dates _ m out hb
  have hstrict := sortKeys_strict (m.map Prod.fst) hnd
  have hpair : (sortKeys (m.map Prod.fst)).Pairwise
      (fun x y => dateLt (goDateOf x) (goDateOf y)) := by
    refine List.Pairwise.imp_of_mem ?_ hstrict
    intro x y hx hy hxy
    obtain ⟨av, hav⟩ := Option.isSome_iff_exists.mp
      (hkeys x ((sortKeys_perm _).mem_iff.mp hx))
    obtain ⟨bv, hbv⟩ := Option.isSome_iff_exists.mp
      (hkeys y ((sortKeys_perm _).mem_iff.mp hy))
    have hmono := parseDateChars_mono x.data y.data av bv hav hbv hxy
    unfold goDateOf
    rw [hav, hbv]
    exact hmono
  have hmapped : (out.map (fun e => e.date)).Pairwise dateLt := by
    rw [hdates, List.pairwise_map]
    exact hpair
  rw [List.pairwise_map] at hmapped
  exact hmapped

theorem c4_sorted_dates_witness :
    processForecastData
        [⟨"2024-03-02 09:00:00", 51, 41, 61, 51, 51, 2, ["b"]⟩,
         ⟨"2024-03-01 09:00:00", 50, 40, 60, 50, 50, 1, ["a"]⟩] =
      some [⟨(2024, 3, 1), "a", 60, 40, 1, 50⟩, ⟨(2024, 3, 2), "b", 61, 41, 2, 51⟩] ∧
    List.Pairwise (fun e1 e2 => dateLt e1.date e2.date)
      [(⟨(2024, 3, 1), "a", 60, 40, 1, 50⟩ : DailyForecast),
       ⟨(2024, 3, 2), "b", 61, 41, 2, 51⟩] :=
  ⟨by decide,
   c4_sorted_dates
     [⟨"2024-03-02 09:00:00", 51, 41, 61, 51, 51, 2, ["b"]⟩,
      ⟨"2024-03-01 09:00:00", 50, 40, 60, 50, 50, 1, ["a"]⟩]
     [⟨(2024, 3, 1), "a", 60, 40, 1, 50⟩, ⟨(2024, 3, 2), "b", 61, 41, 2, 51⟩]
     (by decide) (by decide)⟩
